import Mathlib

/-!
# Verification of the hanzoai/guard I/O-sanitization adapters

Shallow embedding of the three guard adapters (PTY wrapper `wrap.rs`,
JSON-RPC wrapper `mcp_proxy.rs`, HTTP reverse proxy `proxy.rs`) and the
one-shot CLI (`main.rs`).  The sanitizer itself (`hanzo_guard::Guard`) is an
external collaborator with the tri-state contract of spec section 6; it is
modelled as an oracle parameter (`Gateway`).  `serde_json` values are
modelled by the inductive `J`; parsing and compact serialization are
modelled executably (`parseJson` / `serialize`) so that concrete protocol
lines can be evaluated inside proofs.

Modelling notes (all irrelevant to the claims checked here):
* numbers are modelled as integers; float payloads never occur in any claim;
* object fields are kept in parse order (as with serde_json's
  `preserve_order` map); no claim depends on key iteration order;
* inside string literals the parser accepts raw control characters and the
  serializer escapes the common control characters by name; `\u` escapes
  are parsed (surrogate pairs rejected).
-/

set_option maxHeartbeats 1000000
set_option linter.unusedVariables false
set_option linter.unreachableTactic false
set_option linter.unusedTactic false

namespace GuardProof

/-- Tri-state sanitizer outcome from the `hanzo_guard` contract (spec section 6):
`Clean(text)`, `Redacted { text, redactions }`, `Blocked { reason, .. }`.
Redaction descriptors and block metadata are opaque to the adapters. -/
inductive SanitizeResult where
  | Clean (text : String)
  | Redacted (text : String) (redactions : List String)
  | Blocked (reason : String) (metadata : List String)

/-- The sanitization gateway.  `Guard.sanitize_input` and
`Guard.sanitize_output` are modelled as one oracle taking the direction flag
`is_input` (exactly the flag the adapters' filter helpers thread through)
and the submitted text.  The opaque error is modelled as the `String` the
adapters obtain from `e.to_string()`. -/
abbrev Gateway := Bool → String → Except String SanitizeResult

/-- One record per gateway invocation: the direction flag and the exact text
submitted.  Adapters are instrumented to return this trace so that claims
about "how often content passed through the gateway" can be stated. -/
abbrev Trace := List (Bool × String)

/-- `serde_json::Value`.  Numbers are modelled as integers and objects as
association lists in parse order (see the module docstring). -/
inductive J where
  | null
  | bool (b : Bool)
  | num (n : Int)
  | str (s : String)
  | arr (elems : List J)
  | obj (fields : List (String × J))
deriving Repr

/-- Is this value a JSON object or array?  (`Value::is_object() ||
Value::is_array()` from the second traversal pass of `filter_value`.) -/
def J.isObjOrArr : J → Bool
  | .obj _ => true
  | .arr _ => true
  | _ => false

/-! ## Compact serialization (`serde_json::to_string`) -/

/-- Escape one character of a JSON string literal. -/
def escChar (c : Char) : List Char :=
  if c = '"' then ['\\', '"']
  else if c = '\\' then ['\\', '\\']
  else if c = '\n' then ['\\', 'n']
  else if c = '\t' then ['\\', 't']
  else if c = '\r' then ['\\', 'r']
  else if c = '\x08' then ['\\', 'b']
  else if c = '\x0c' then ['\\', 'f']
  else [c]

/-- Escape the characters of a JSON string literal body. -/
def escStr : List Char → List Char
  | [] => []
  | c :: cs => escChar c ++ escStr cs

/-- The decimal digit character for `d < 10`. -/
def digitChar (d : Nat) : Char := Char.ofNat (48 + d)

/-- Decimal representation of a natural number, most significant digit
first. -/
def natChars (n : Nat) : List Char :=
  if n = 0 then ['0'] else ((Nat.digits 10 n).map digitChar).reverse

/-- Decimal representation of an integer. -/
def intChars (i : Int) : List Char :=
  if i < 0 then '-' :: natChars i.natAbs else natChars i.natAbs

mutual

/-- Compact serialization of a JSON value, as `serde_json::to_string`. -/
def serV : J → List Char
  | .null => ['n', 'u', 'l', 'l']
  | .num i => intChars i
  | .bool bb => if bb then ['t', 'r', 'u', 'e'] else ['f', 'a', 'l', 's', 'e']
  | .str s => '"' :: (escStr s.data ++ ['"'])
  | .arr [] => ['[', ']']
  | .arr (x :: xs) => '[' :: (serV x ++ serArrTail xs ++ [']'])
  | .obj [] => ['\x7b', '\x7d']
  | .obj (m :: ms) => '\x7b' :: (serMember m ++ serObjTail ms ++ ['\x7d'])

/-- Serialize the remaining array elements, each preceded by a comma. -/
def serArrTail : List J → List Char
  | [] => []
  | x :: xs => ',' :: (serV x ++ serArrTail xs)

/-- Serialize one object member `"key":value`. -/
def serMember : String × J → List Char
  | (k, v) => '"' :: (escStr k.data ++ ['"', ':']) ++ serV v

/-- Serialize the remaining object members, each preceded by a comma. -/
def serObjTail : List (String × J) → List Char
  | [] => []
  | m :: ms => ',' :: (serMember m ++ serObjTail ms)

end

/-- Compact serialization to a `String`. -/
def serialize (v : J) : String := String.mk (serV v)

/-! ## Parsing (`serde_json::from_str`) -/

/-- The four JSON whitespace characters. -/
def isWsChar (c : Char) : Bool := c = ' ' || c = '\t' || c = '\n' || c = '\r'

/-- Drop leading JSON whitespace. -/
def skipWs : List Char → List Char
  | [] => []
  | c :: cs => if isWsChar c then skipWs cs else c :: cs

/-- Value of a hex digit character. -/
def hexVal (c : Char) : Option Nat :=
  if '0' ≤ c ∧ c ≤ '9' then some (c.toNat - 48)
  else if 'a' ≤ c ∧ c ≤ 'f' then some (c.toNat - 87)
  else if 'A' ≤ c ∧ c ≤ 'F' then some (c.toNat - 55)
  else none

mutual

/-- Parse the body of a string literal after the opening quote, with an
accumulator of already-read characters in reverse (surrogate `\u` escapes
are rejected). -/
def parseStrBody (acc : List Char) : List Char → Option (String × List Char)
  | [] => none
  | c :: cs =>
    if c = '"' then some (String.mk acc.reverse, cs)
    else if c = '\\' then parseEsc acc cs
    else parseStrBody (c :: acc) cs

/-- Handle the character after a backslash inside a string literal. -/
def parseEsc (acc : List Char) : List Char → Option (String × List Char)
  | [] => none
  | e :: cs2 =>
    if e = '"' then parseStrBody ('"' :: acc) cs2
    else if e = '\\' then parseStrBody ('\\' :: acc) cs2
    else if e = '/' then parseStrBody ('/' :: acc) cs2
    else if e = 'n' then parseStrBody ('\n' :: acc) cs2
    else if e = 't' then parseStrBody ('\t' :: acc) cs2
    else if e = 'r' then parseStrBody ('\r' :: acc) cs2
    else if e = 'b' then parseStrBody ('\x08' :: acc) cs2
    else if e = 'f' then parseStrBody ('\x0c' :: acc) cs2
    else if e = 'u' then
      match cs2 with
      | h1 :: h2 :: h3 :: h4 :: cs3 =>
        match hexVal h1, hexVal h2, hexVal h3, hexVal h4 with
        | some a, some b, some c', some d =>
          let n := ((a * 16 + b) * 16 + c') * 16 + d
          if 0xd800 ≤ n ∧ n < 0xe000 then none
          else parseStrBody (Char.ofNat n :: acc) cs3
        | _, _, _, _ => none
      | _ => none
    else none

end

/-- Scan a maximal run of decimal digits into their values. -/
def takeDigits : List Char → List Nat × List Char
  | [] => ([], [])
  | c :: cs =>
    if c.isDigit then
      let (ds, r) := takeDigits cs
      ((c.toNat - 48) :: ds, r)
    else ([], c :: cs)

/-- Numeric value of a most-significant-first digit list. -/
def digitsVal (ds : List Nat) : Nat := ds.foldl (fun a d => 10 * a + d) 0

mutual

/-- Fuel-indexed JSON value parser.  Every recursive call spends one unit of
fuel; `parseJson` supplies enough fuel for any input of its length. -/
def parseV : Nat → List Char → Option (J × List Char)
  | 0, _ => none
  | Nat.succ f, cs =>
    match skipWs cs with
    | [] => none
    | c :: cs1 =>
      if c = '\x7b' then
        match skipWs cs1 with
        | '\x7d' :: cs2 => some (.obj [], cs2)
        | cs2 =>
          match parseMembers f cs2 with
          | some (ms, cs3) => some (.obj ms, cs3)
          | none => none
      else if c = '[' then
        match skipWs cs1 with
        | ']' :: cs2 => some (.arr [], cs2)
        | cs2 =>
          match parseItems f cs2 with
          | some (xs, cs3) => some (.arr xs, cs3)
          | none => none
      else if c = '"' then
        match parseStrBody [] cs1 with
        | some (s, cs2) => some (.str s, cs2)
        | none => none
      else if c = 't' then
        match cs1 with
        | 'r' :: 'u' :: 'e' :: cs2 => some (.bool true, cs2)
        | _ => none
      else if c = 'f' then
        match cs1 with
        | 'a' :: 'l' :: 's' :: 'e' :: cs2 => some (.bool false, cs2)
        | _ => none
      else if c = 'n' then
        match cs1 with
        | 'u' :: 'l' :: 'l' :: cs2 => some (.null, cs2)
        | _ => none
      else if c = '-' then
        match takeDigits cs1 with
        | ([], _) => none
        | (ds, cs2) => some (.num (-(digitsVal ds : Int)), cs2)
      else if c.isDigit then
        match takeDigits (c :: cs1) with
        | (ds, cs2) => some (.num (digitsVal ds), cs2)
      else none

/-- Parse one or more comma-separated array elements and the closing
bracket. -/
def parseItems : Nat → List Char → Option (List J × List Char)
  | 0, _ => none
  | Nat.succ f, cs =>
    match parseV f cs with
    | none => none
    | some (v, cs1) =>
      match skipWs cs1 with
      | ',' :: cs2 =>
        match parseItems f cs2 with
        | some (xs, cs3) => some (v :: xs, cs3)
        | none => none
      | ']' :: cs2 => some ([v], cs2)
      | _ => none

/-- Parse one or more comma-separated object members and the closing
brace. -/
def parseMembers : Nat → List Char → Option (List (String × J) × List Char)
  | 0, _ => none
  | Nat.succ f, cs =>
    match skipWs cs with
    | '"' :: cs1 =>
      match parseStrBody [] cs1 with
      | none => none
      | some (k, cs2) =>
        match skipWs cs2 with
        | ':' :: cs3 =>
          match parseV f cs3 with
          | none => none
          | some (v, cs4) =>
            match skipWs cs4 with
            | ',' :: cs5 =>
              match parseMembers f cs5 with
              | some (ms, cs6) => some ((k, v) :: ms, cs6)
              | none => none
            | '\x7d' :: cs5 => some ([(k, v)], cs5)
            | _ => none
        | _ => none
    | _ => none

end

/-- `serde_json::from_str::<Value>`: parse a complete JSON document,
allowing surrounding whitespace only. -/
def parseJson (s : String) : Option J :=
  match parseV (2 * s.length + 2) s.data with
  | some (v, rest) => if skipWs rest = [] then some v else none
  | none => none

/-! ## Size measures for the round-trip proof -/

mutual

/-- Structural size of a value, matching the parser's fuel consumption. -/
def sizeV : J → Nat
  | .arr xs => 1 + sizeL xs
  | .obj ms => 1 + sizeM ms
  | _ => 1

/-- Structural size of an array's elements. -/
def sizeL : List J → Nat
  | [] => 0
  | x :: xs => 1 + sizeV x + sizeL xs

/-- Structural size of an object's members. -/
def sizeM : List (String × J) → Nat
  | [] => 0
  | (_, v) :: ms => 1 + sizeV v + sizeM ms

end

/-- Does the list avoid starting with a digit?  (Numbers are the only
serialized tokens not self-delimited, so the round-trip statement assumes
the trailing input does not start with a digit.) -/
def noLeadDigit : List Char → Bool
  | [] => true
  | c :: _ => !c.isDigit

/-! ## Object field access (`Value::get` / `Value::get_mut`) -/

/-- Look up the first binding of `key` in an object's field list. -/
def lookupField : List (String × J) → String → Option J
  | [], _ => none
  | (k, v) :: rest, key => if k = key then some v else lookupField rest key

/-- Replace the value of the first binding of `key`, keeping its position. -/
def setField : List (String × J) → String → J → List (String × J)
  | [], _, _ => []
  | (k, v) :: rest, key, nv =>
    if k = key then (k, nv) :: rest else (k, v) :: setField rest key nv

/-- `Value::get(key)`: field lookup on objects, `None` otherwise. -/
def jGet (v : J) (k : String) : Option J :=
  match v with
  | .obj fields => lookupField fields k
  | _ => none

/-- Model of `if let Some(x) = v.get_mut(k) { f(x) }` for a trace-returning
in-place update `f`: apply `f` to the value at key `k` when `v` is an object
containing `k`, otherwise leave `v` unchanged and make no gateway call. -/
def modifyField (v : J) (k : String) (f : J → J × Trace) : J × Trace :=
  match v with
  | .obj fields =>
    match lookupField fields k with
    | some u =>
      let (u', t) := f u
      (.obj (setField fields k u'), t)
    | none => (v, [])
  | _ => (v, [])

/-! ## PTY adapter (`wrap.rs`) -/

/-- Model of Rust's `text.trim().is_empty()`: the text contains only
whitespace (or is empty).  (Rust trims the full Unicode whitespace set;
Lean's `Char.isWhitespace` covers the ASCII subset, which is the only
difference and is irrelevant to every claim.) -/
def isBlank (s : String) : Bool := s.data.all Char.isWhitespace

/-- `wrap.rs::filter_text`, instrumented with the trace of gateway calls made
for the chunk.  Whitespace-only chunks return early without calling the
gateway; `Blocked` yields the empty string; gateway errors pass the original
text through. -/
def filter_text (g : Gateway) (text : String) (is_input : Bool) : String × Trace :=
  if isBlank text then (text, [])
  else
    match g is_input text with
    | .ok (.Clean t) => (t, [(is_input, text)])
    | .ok (.Redacted t _) => (t, [(is_input, text)])
    | .ok (.Blocked _ _) => ("", [(is_input, text)])
    | .error _ => (text, [(is_input, text)])

/-- The bytes one chunk contributes to the opposite stream in `wrap.rs::main`'s
select loop: the filtered text is written only when non-empty (writing
nothing and writing the empty string are byte-identical). -/
def pty_step (g : Gateway) (text : String) (is_input : Bool) : String :=
  let filtered := (filter_text g text is_input).1
  if filtered.isEmpty then "" else filtered

/-! ## JSON-RPC adapter (`mcp_proxy.rs`)

`filter_value`'s second object pass re-filters values already rewritten by
the first pass, so the recursion is not structural in the value.  It is
defined through a fuel-indexed version, structurally recursive on the fuel,
which the wrapper `filter_value` runs with fuel `sizeV value`.  That fuel is
sufficient because every recursive call descends with strictly smaller
`sizeV` and the traversal preserves `sizeV` exactly (strings map to strings,
arrays to same-length arrays, objects to same-keyed objects); this is made
precise by `filter_value_fuel_size` and `filter_value_fuel_congr` below. -/

mutual

/-- Fuel-indexed `mcp_proxy.rs::filter_value` (see the section comment):
strings are sanitized (`Blocked` becomes the `"[BLOCKED]"` sentinel, errors
keep the original); arrays are filtered elementwise; objects get two passes:
first the selected keys `content`/`text`/`value`, then every object- or
array-valued field. -/
def filter_value_fuel : Nat → Gateway → J → Bool → J × Trace
  | _, g, .str s, is_input =>
    (match g is_input s with
    | .ok (.Clean t) => (.str t, [(is_input, s)])
    | .ok (.Redacted t _) => (.str t, [(is_input, s)])
    | .ok (.Blocked _ _) => (.str "[BLOCKED]", [(is_input, s)])
    | .error _ => (.str s, [(is_input, s)]))
  | f + 1, g, .arr elems, is_input =>
    let (es, t) := filter_list_fuel f g elems is_input
    (.arr es, t)
  | f + 1, g, .obj fields, is_input =>
    let (f1, t1) := filter_sel_fuel f g fields is_input
    let (f2, t2) := filter_nest_fuel f g f1 is_input
    (.obj f2, t1 ++ t2)
  | _, _, other, _ => (other, [])

/-- Elementwise `filter_value_fuel` over array elements. -/
def filter_list_fuel : Nat → Gateway → List J → Bool → List J × Trace
  | _, _, [], _ => ([], [])
  | f + 1, g, x :: xs, is_input =>
    let (y, t1) := filter_value_fuel f g x is_input
    let (ys, t2) := filter_list_fuel f g xs is_input
    (y :: ys, t1 ++ t2)
  | 0, _, es, _ => (es, [])

/-- First object pass of `filter_value`: filter the values of the selected
keys `content`, `text`, `value`. -/
def filter_sel_fuel : Nat → Gateway → List (String × J) → Bool →
    List (String × J) × Trace
  | _, _, [], _ => ([], [])
  | f + 1, g, (k, v) :: rest, is_input =>
    let (v', t1) :=
      if k = "content" || k = "text" || k = "value" then
        filter_value_fuel f g v is_input
      else (v, [])
    let (rest', t2) := filter_sel_fuel f g rest is_input
    ((k, v') :: rest', t1 ++ t2)
  | 0, _, fs, _ => (fs, [])

/-- Second object pass of `filter_value`: filter every object- or
array-valued field (selected or not). -/
def filter_nest_fuel : Nat → Gateway → List (String × J) → Bool →
    List (String × J) × Trace
  | _, _, [], _ => ([], [])
  | f + 1, g, (k, v) :: rest, is_input =>
    let (v', t1) :=
      if v.isObjOrArr then filter_value_fuel f g v is_input else (v, [])
    let (rest', t2) := filter_nest_fuel f g rest is_input
    ((k, v') :: rest', t1 ++ t2)
  | 0, _, fs, _ => (fs, [])

end

/-- `mcp_proxy.rs::filter_value`, instrumented with the gateway-call trace:
the fuel-indexed traversal run with (sufficient) fuel `sizeV value`. -/
def filter_value (g : Gateway) (value : J) (is_input : Bool) : J × Trace :=
  filter_value_fuel (sizeV value) g value is_input

/-- The method dispatch of `mcp_proxy.rs::filter_jsonrpc`: `tools/call`
locates `params.arguments`, `completion/complete` locates `params.prompt`,
`sampling/createMessage` locates `params.messages`; any other (or missing,
or non-string) method does no method-specific filtering. -/
def locate_method (g : Gateway) (msg : J) (is_input : Bool) : J × Trace :=
  match jGet msg "method" with
  | some (.str "tools/call") =>
    modifyField msg "params" fun p =>
      modifyField p "arguments" fun a => filter_value g a is_input
  | some (.str "completion/complete") =>
    modifyField msg "params" fun p =>
      modifyField p "prompt" fun a => filter_value g a is_input
  | some (.str "sampling/createMessage") =>
    modifyField msg "params" fun p =>
      modifyField p "messages" fun a => filter_value g a is_input
  | _ => (msg, [])

/-- The envelope-level transformation of `mcp_proxy.rs::filter_jsonrpc` on a
parsed message: dispatch on `method`, then independently filter `result`. -/
def filter_msg (g : Gateway) (msg : J) (is_input : Bool) : J × Trace :=
  let (m1, t1) := locate_method g msg is_input
  let (m2, t2) := modifyField m1 "result" fun r => filter_value g r is_input
  (m2, t1 ++ t2)

/-- `mcp_proxy.rs::filter_jsonrpc`, instrumented.  The first component is the
line written onward (the original line verbatim when it does not parse); the
second records every gateway call made for the line. -/
def filter_jsonrpc (g : Gateway) (line : String) (is_input : Bool) :
    String × Trace :=
  match parseJson line with
  | none => (line, [])
  | some msg =>
    let (m2, t) := filter_msg g msg is_input
    (serialize m2, t)

/-- One direction's line loop in `mcp_proxy.rs::main`: each line read
produces exactly one filtered line written onward. -/
def mcp_run (g : Gateway) (lines : List String) (is_input : Bool) : List String :=
  lines.map fun l => (filter_jsonrpc g l is_input).1

/-! ## HTTP reverse proxy adapter (`proxy.rs`)

`sanitize_json_messages` applies its six per-key steps sequentially to the
object's (already partially rewritten) field list, so as with `filter_value`
the recursion is not structural in the value and is defined through a
fuel-indexed version, run with the sufficient fuel `sizeV json` (every
recursive call descends with strictly smaller `sizeV`, and the traversal
preserves `sizeV`; see `sjm_fuel_size` and `sjm_fuel_congr` below). -/

/-- The `text` step of `sanitize_json_messages`: at the first `text` field,
sanitize a string value directly (propagating Blocked/error); any other
value is untouched.  (This step never recurses into the traversal.) -/
def sjm_text (g : Gateway) (fields : List (String × J)) (is_input : Bool) :
    Except String (List (String × J) × Trace) :=
  match fields with
  | [] => .ok ([], [])
  | (k, v) :: rest =>
    if k = "text" then
      match v with
      | .str s =>
        match g is_input s with
        | .ok (.Clean t) => .ok ((k, .str t) :: rest, [(is_input, s)])
        | .ok (.Redacted t _) => .ok ((k, .str t) :: rest, [(is_input, s)])
        | .ok (.Blocked reason _) => .error reason
        | .error e => .error e
      | _ => .ok ((k, v) :: rest, [])
    else do
      let (rest', t) ← sjm_text g rest is_input
      .ok ((k, v) :: rest', t)

mutual

/-- Fuel-indexed `proxy.rs::sanitize_json_messages`, instrumented.  `Err`
carries the blocked reason or the sanitizer error string, exactly as the
source propagates them; on success the trace lists the gateway calls made.
An object is processed by six sequential steps: the `content` field (string
sanitized, array recursed), the `text` field (string sanitized), then a full
recursion into each of `messages`, `choices`, `message` and `delta`. -/
def sjm_fuel : Nat → Gateway → J → Bool → Except String (J × Trace)
  | f + 1, g, .obj fields, is_input => do
    let (f1, t1) ← sjm_content_fuel f g fields is_input
    let (f2, t2) ← sjm_text g f1 is_input
    let (f3, t3) ← sjm_key_fuel f g f2 "messages" is_input
    let (f4, t4) ← sjm_key_fuel f g f3 "choices" is_input
    let (f5, t5) ← sjm_key_fuel f g f4 "message" is_input
    let (f6, t6) ← sjm_key_fuel f g f5 "delta" is_input
    .ok (.obj f6, t1 ++ t2 ++ t3 ++ t4 ++ t5 ++ t6)
  | f + 1, g, .arr elems, is_input => do
    let (es, t) ← sjm_list_fuel f g elems is_input
    .ok (.arr es, t)
  | _, _, other, _ => .ok (other, [])

/-- `sjm_fuel` over the elements of an array. -/
def sjm_list_fuel : Nat → Gateway → List J → Bool →
    Except String (List J × Trace)
  | _, _, [], _ => .ok ([], [])
  | f + 1, g, x :: xs, is_input => do
    let (y, t1) ← sjm_fuel f g x is_input
    let (ys, t2) ← sjm_list_fuel f g xs is_input
    .ok (y :: ys, t1 ++ t2)
  | 0, _, es, _ => .ok (es, [])

/-- The `content` step of `sanitize_json_messages`: at the first `content`
field, sanitize a string value directly (propagating Blocked/error), recurse
into an array value, and leave any other value untouched. -/
def sjm_content_fuel : Nat → Gateway → List (String × J) → Bool →
    Except String (List (String × J) × Trace)
  | _, _, [], _ => .ok ([], [])
  | f + 1, g, (k, v) :: rest, is_input =>
    if k = "content" then
      match v with
      | .str s =>
        match g is_input s with
        | .ok (.Clean t) => .ok ((k, .str t) :: rest, [(is_input, s)])
        | .ok (.Redacted t _) => .ok ((k, .str t) :: rest, [(is_input, s)])
        | .ok (.Blocked reason _) => .error reason
        | .error e => .error e
      | .arr xs => do
        let (ys, t) ← sjm_list_fuel f g xs is_input
        .ok ((k, .arr ys) :: rest, t)
      | _ => .ok ((k, v) :: rest, [])
    else do
      let (rest', t) ← sjm_content_fuel f g rest is_input
      .ok ((k, v) :: rest', t)
  | 0, _, fs, _ => .ok (fs, [])

/-- The recursion step of `sanitize_json_messages` for one envelope key:
recurse the full traversal into the first field named `key`, whatever its
shape. -/
def sjm_key_fuel : Nat → Gateway → List (String × J) → String → Bool →
    Except String (List (String × J) × Trace)
  | _, _, [], _, _ => .ok ([], [])
  | f + 1, g, (k, v) :: rest, key, is_input =>
    if k = key then do
      let (v', t) ← sjm_fuel f g v is_input
      .ok ((k, v') :: rest, t)
    else do
      let (rest', t) ← sjm_key_fuel f g rest key is_input
      .ok ((k, v) :: rest', t)
  | 0, _, fs, _, _ => .ok (fs, [])

end

/-- `proxy.rs::sanitize_json_messages`: the fuel-indexed traversal run with
(sufficient) fuel `sizeV json`. -/
def sanitize_json_messages (g : Gateway) (json : J) (is_input : Bool) :
    Except String (J × Trace) :=
  sjm_fuel (sizeV json) g json is_input

/-- `proxy.rs::sanitize_llm_request`, instrumented: a body that parses as
JSON goes through the recursive message sanitizer and is re-serialized;
anything else is sanitized by one direct `sanitize_input` call, whose
Blocked reason or error becomes the `Err`. -/
def sanitize_llm_request (g : Gateway) (body : String) :
    Except String (String × Trace) :=
  match parseJson body with
  | some json => do
    let (j, t) ← sanitize_json_messages g json true
    .ok (serialize j, t)
  | none =>
    match g true body with
    | .ok (.Clean t) => .ok (t, [(true, body)])
    | .ok (.Redacted t _) => .ok (t, [(true, body)])
    | .ok (.Blocked reason _) => .error reason
    | .error e => .error e

/-- `proxy.rs::sanitize_llm_response`, instrumented (direction = output). -/
def sanitize_llm_response (g : Gateway) (body : String) :
    Except String (String × Trace) :=
  match parseJson body with
  | some json => do
    let (j, t) ← sanitize_json_messages g json false
    .ok (serialize j, t)
  | none =>
    match g false body with
    | .ok (.Clean t) => .ok (t, [(false, body)])
    | .ok (.Redacted t _) => .ok (t, [(false, body)])
    | .ok (.Blocked reason _) => .error reason
    | .error e => .error e

/-- An HTTP request as `handle_request` sees it: method, path+query, headers
(lowercase names, as hyper normalizes them), and the collected body. -/
structure HttpReq where
  method : String
  pathAndQuery : String
  headers : List (String × String)
  body : String

/-- An HTTP response: status code, headers, full body. -/
structure HttpResp where
  status : Nat
  headers : List (String × String)
  body : String

/-- `proxy.rs::error_response`: a JSON error body
`{"error":{"message":...,"type":"guard_error"}}` with the given status. -/
def error_response (status : Nat) (message : String) : HttpResp :=
  { status := status
    headers := [("content-type", "application/json")]
    body := serialize (.obj [("error",
      .obj [("message", .str message), ("type", .str "guard_error")])]) }

/-- `proxy.rs::handle_request`.  `send` stands for the reqwest client call;
the second component of the result counts upstream requests actually sent,
so that "never contacts upstream" is observable. -/
def handle_request (g : Gateway) (send : HttpReq → Except String HttpResp)
    (upstream : String) (req : HttpReq) : HttpResp × Nat :=
  let step1 : Except HttpResp String :=
    if req.body.isEmpty then .ok req.body
    else
      match sanitize_llm_request g req.body with
      | .ok (s, _) => .ok s
      | .error e => .error (error_response 400 ("Input blocked: " ++ e))
  match step1 with
  | .error resp => (resp, 0)
  | .ok sanitizedInput =>
    let upstreamReq : HttpReq :=
      { method := req.method
        pathAndQuery := upstream ++ req.pathAndQuery
        headers := req.headers.filter fun h => h.1 != "host"
        body := sanitizedInput }
    match send upstreamReq with
    | .error e => (error_response 502 ("Upstream error: " ++ e), 1)
    | .ok upstreamResp =>
      let step2 : Except HttpResp String :=
        if upstreamResp.body.isEmpty then .ok upstreamResp.body
        else
          match sanitize_llm_response g upstreamResp.body with
          | .ok (s, _) => .ok s
          | .error e => .error (error_response 500 ("Output blocked: " ++ e))
      match step2 with
      | .error resp => (resp, 1)
      | .ok sanitizedOutput =>
        ({ status := upstreamResp.status
           headers := upstreamResp.headers.filter fun h =>
             h.1 != "content-length" && h.1 != "transfer-encoding"
           body := sanitizedOutput }, 1)

/-! ## One-shot CLI (`main.rs`) -/

/-- `main.rs`: the one-shot CLI's exit code as a function of the acquired
input text, the `--json` flag and the gateway.  Empty (whitespace-only)
input exits 1 before any sanitization; a sanitizer error exits 1; `Blocked`
exits 2 only on the plain-text path, while the `--json` path prints the
blocked report and falls through to exit 0. -/
def cli_exit_code (g : Gateway) (input : String) (json_output : Bool) : Nat :=
  if isBlank input then 1
  else
    match g true input with
    | .ok (.Clean _) => 0
    | .ok (.Redacted _ _) => 0
    | .ok (.Blocked _ _) => if json_output then 0 else 2
    | .error _ => 1

/-! ## Concrete gateways and protocol units used in witnesses and
counterexamples -/

/-- A gateway that returns every text unchanged as `Clean`. -/
def g_clean : Gateway := fun _ s => .ok (.Clean s)

/-- A gateway that redacts every text to the fixed string `"[X]"`. -/
def g_red : Gateway := fun _ _ => .ok (.Redacted "[X]" ["ssn"])

/-- A gateway that blocks every text. -/
def g_block : Gateway := fun _ _ => .ok (.Blocked "policy" [])

/-- A gateway that always fails. -/
def g_err : Gateway := fun _ _ => .error "boom"

/-- A gateway that passes user input through as `Clean` but fails on every
output-direction call. -/
def g_out_err : Gateway :=
  fun b s => if b then .ok (.Clean s) else .error "boom"

/-- An upstream that refuses every request (never reached in the claims
that use it). -/
def send_fail : HttpReq → Except String HttpResp := fun _ => .error "net"

/-- An upstream that answers 200 with a fixed non-empty plain-text body. -/
def send_ok : HttpReq → Except String HttpResp :=
  fun _ => .ok { status := 200, headers := [], body := "pong" }

/-- `{"foo":"bar"}`: parses as JSON but is not a chat-completion payload. -/
def body_foo : String := serialize (J.obj [("foo", J.str "bar")])

/-- A `tools/call` line whose only payload string sits inside an array under
the selected key `content`. -/
def line_double : String :=
  serialize (J.obj [("method", J.str "tools/call"),
    ("params", J.obj [("arguments", J.obj [("content", J.arr [J.str "x"])])])])

/-- A `tools/call` line whose `params.arguments` is a direct string. -/
def line_args_str : String :=
  serialize (J.obj [("method", J.str "tools/call"),
    ("params", J.obj [("arguments", J.str "hi")]), ("id", J.str "one")])

/-- The spec's section-8 example: a `tools/call` envelope carrying
`params.arguments.content = "SECRET"`. -/
def line_secret : String :=
  serialize (J.obj [("jsonrpc", J.str "2.0"), ("method", J.str "tools/call"),
    ("params", J.obj [("arguments", J.obj [("content", J.str "SECRET")])])])

/-- A request with a non-empty plain-text body. -/
def req_secret : HttpReq :=
  { method := "POST", pathAndQuery := "/v1/chat", headers := [("host", "h")],
    body := "secret stuff" }

/-- The parsed tree of `line_args_str`. -/
def msg_args : J :=
  J.obj [("method", J.str "tools/call"),
    ("params", J.obj [("arguments", J.str "hi")]), ("id", J.str "one")]

/-- The parsed tree of `line_secret`. -/
def msg_secret : J :=
  J.obj [("jsonrpc", J.str "2.0"), ("method", J.str "tools/call"),
    ("params", J.obj [("arguments", J.obj [("content", J.str "SECRET")])])]

/-! ## Round-trip: parsing a compact serialization recovers the value -/

theorem skipWs_not_ws {c : Char} (cs : List Char) (h : isWsChar c = false) :
    skipWs (c :: cs) = c :: cs := by
  simp [skipWs, h]

theorem parseStrBody_quote (acc cs : List Char) :
    parseStrBody acc ('"' :: cs) = some (String.mk acc.reverse, cs) := by
  rw [parseStrBody.eq_def]
  simp

theorem parseStrBody_plain {c : Char} (acc cs : List Char) (h1 : c ≠ '"')
    (h2 : c ≠ '\\') : parseStrBody acc (c :: cs) = parseStrBody (c :: acc) cs := by
  rw [parseStrBody.eq_def]
  simp [h1, h2]

theorem parseStrBody_escape {e r : Char} (acc cs : List Char)
    (h : (e = '"' ∧ r = '"') ∨ (e = '\\' ∧ r = '\\') ∨ (e = 'n' ∧ r = '\n') ∨
      (e = 't' ∧ r = '\t') ∨ (e = 'r' ∧ r = '\r') ∨ (e = 'b' ∧ r = '\x08') ∨
      (e = 'f' ∧ r = '\x0c')) :
    parseStrBody acc ('\\' :: e :: cs) = parseStrBody (r :: acc) cs := by
  rw [parseStrBody.eq_def]
  rcases h with ⟨he, hr⟩ | ⟨he, hr⟩ | ⟨he, hr⟩ | ⟨he, hr⟩ | ⟨he, hr⟩ | ⟨he, hr⟩ |
    ⟨he, hr⟩ <;> subst he <;> subst hr <;> simp [parseEsc]

/-- Parsing an escaped string body recovers the original characters. -/
theorem parseStrBody_esc (cs : List Char) :
    ∀ acc rest, parseStrBody acc (escStr cs ++ '"' :: rest) =
      some (String.mk (acc.reverse ++ cs), rest) := by
  induction cs with
  | nil =>
    intro acc rest
    rw [escStr, List.nil_append, parseStrBody_quote]
    simp
  | cons c cs ih =>
    intro acc rest
    rw [escStr, List.append_assoc]
    by_cases h1 : c = '"'
    · subst h1
      have he : escChar '"' = ['\\', '"'] := by decide
      rw [he, List.cons_append, List.cons_append, List.nil_append,
        parseStrBody_escape _ _ (Or.inl ⟨rfl, rfl⟩), ih]
      simp
    · by_cases h2 : c = '\\'
      · subst h2
        have he : escChar '\\' = ['\\', '\\'] := by decide
        rw [he, List.cons_append, List.cons_append, List.nil_append,
          parseStrBody_escape _ _ (Or.inr (Or.inl ⟨rfl, rfl⟩)), ih]
        simp
      · by_cases h3 : c = '\n'
        · subst h3
          have he : escChar '\n' = ['\\', 'n'] := by decide
          rw [he, List.cons_append, List.cons_append, List.nil_append,
            parseStrBody_escape _ _ (Or.inr (Or.inr (Or.inl ⟨rfl, rfl⟩))), ih]
          simp
        · by_cases h4 : c = '\t'
          · subst h4
            have he : escChar '\t' = ['\\', 't'] := by decide
            rw [he, List.cons_append, List.cons_append, List.nil_append,
              parseStrBody_escape _ _
                (Or.inr (Or.inr (Or.inr (Or.inl ⟨rfl, rfl⟩)))), ih]
            simp
          · by_cases h5 : c = '\r'
            · subst h5
              have he : escChar '\r' = ['\\', 'r'] := by decide
              rw [he, List.cons_append, List.cons_append, List.nil_append,
                parseStrBody_escape _ _
                  (Or.inr (Or.inr (Or.inr (Or.inr (Or.inl ⟨rfl, rfl⟩))))), ih]
              simp
            · by_cases h6 : c = '\x08'
              · subst h6
                have he : escChar '\x08' = ['\\', 'b'] := by decide
                rw [he, List.cons_append, List.cons_append, List.nil_append,
                  parseStrBody_escape _ _
                    (Or.inr (Or.inr (Or.inr (Or.inr (Or.inr (Or.inl ⟨rfl, rfl⟩)))))),
                  ih]
                simp
              · by_cases h7 : c = '\x0c'
                · subst h7
                  have he : escChar '\x0c' = ['\\', 'f'] := by decide
                  rw [he, List.cons_append, List.cons_append, List.nil_append,
                    parseStrBody_escape _ _
                      (Or.inr (Or.inr (Or.inr (Or.inr (Or.inr (Or.inr ⟨rfl, rfl⟩)))))),
                    ih]
                  simp
                · have he : escChar c = [c] := by
                    simp [escChar, h1, h2, h3, h4, h5, h6, h7]
                  rw [he, List.singleton_append, parseStrBody_plain _ _ h1 h2, ih]
                  simp

/-- Parsing the serialized body of a string literal recovers the string. -/
theorem parseStrBody_ser (s : String) (rest : List Char) :
    parseStrBody [] (escStr s.data ++ '"' :: rest) = some (s, rest) := by
  rw [parseStrBody_esc]
  cases s
  simp

theorem digitChar_isDigit {d : Nat} (h : d < 10) : (digitChar d).isDigit = true := by
  interval_cases d <;> decide

theorem digitChar_val {d : Nat} (h : d < 10) : (digitChar d).toNat - 48 = d := by
  interval_cases d <;> decide

theorem natChars_digits (n : Nat) : ∀ c ∈ natChars n, c.isDigit = true := by
  intro c hc
  unfold natChars at hc
  split at hc
  · simp at hc
    subst hc
    decide
  · simp only [List.mem_reverse, List.mem_map] at hc
    obtain ⟨d, hd, rfl⟩ := hc
    exact digitChar_isDigit (Nat.digits_lt_base (by norm_num) hd)

theorem natChars_ne_nil (n : Nat) : natChars n ≠ [] := by
  unfold natChars
  split
  · simp
  · simp only [ne_eq, List.reverse_eq_nil_iff, List.map_eq_nil_iff]
    exact Nat.digits_ne_nil_iff_ne_zero.mpr (by assumption)

theorem takeDigits_append (ds rest : List Char) (hds : ∀ c ∈ ds, c.isDigit = true)
    (hrest : noLeadDigit rest = true) :
    takeDigits (ds ++ rest) = (ds.map fun c => c.toNat - 48, rest) := by
  induction ds with
  | nil =>
    cases rest with
    | nil => simp [takeDigits]
    | cons r rs =>
      simp only [noLeadDigit, Bool.not_eq_true'] at hrest
      simp [takeDigits, hrest]
  | cons c cs ih =>
    have hc := hds c (by simp)
    simp only [List.cons_append, takeDigits, hc, if_pos, List.map_cons,
      List.append_eq]
    rw [ih fun x hx => hds x (by simp [hx])]

theorem foldl_digits (l : List Nat) (a : Nat) :
    List.foldl (fun x d => 10 * x + d) a l.reverse =
      a * 10 ^ l.length + Nat.ofDigits 10 l := by
  induction l generalizing a with
  | nil => simp [Nat.ofDigits]
  | cons d l ih =>
    simp only [List.reverse_cons, List.foldl_append, List.foldl_cons, List.foldl_nil,
      List.length_cons, Nat.ofDigits_cons, ih]
    ring

theorem isDigit_ne {c : Char} (h : c.isDigit = true) (d : Char)
    (hd : d.isDigit = false) : c ≠ d := fun he => by
  subst he
  rw [h] at hd
  exact Bool.noConfusion hd

theorem isDigit_not_ws {c : Char} (h : c.isDigit = true) : isWsChar c = false := by
  simp only [isWsChar, Bool.or_eq_false_iff, decide_eq_false_iff_not]
  exact ⟨⟨⟨isDigit_ne h ' ' (by decide), isDigit_ne h '\t' (by decide)⟩,
    isDigit_ne h '\n' (by decide)⟩, isDigit_ne h '\r' (by decide)⟩

theorem digitsVal_natChars (n : Nat) :
    digitsVal ((natChars n).map fun c => c.toNat - 48) = n := by
  unfold natChars
  split
  · subst n
    decide
  · rw [List.map_reverse, List.map_map]
    have hmap : (Nat.digits 10 n).map ((fun c => c.toNat - 48) ∘ digitChar) =
        (Nat.digits 10 n).map id := by
      apply List.map_congr_left
      intro d hd
      exact digitChar_val (Nat.digits_lt_base (by norm_num) hd)
    rw [hmap, List.map_id]
    unfold digitsVal
    rw [foldl_digits]
    simp [Nat.ofDigits_digits]

theorem parseV_natChars (f n : Nat) (rest : List Char)
    (hrest : noLeadDigit rest = true) :
    parseV (f + 1) (natChars n ++ rest) = some (.num (n : Int), rest) := by
  obtain ⟨c, cs', hc⟩ := List.exists_cons_of_ne_nil (natChars_ne_nil n)
  have hcd : c.isDigit = true := natChars_digits n c (by rw [hc]; simp)
  rw [hc, List.cons_append, parseV, skipWs_not_ws _ (isDigit_not_ws hcd)]
  simp only [if_neg (isDigit_ne hcd '\x7b' (by decide)),
    if_neg (isDigit_ne hcd '[' (by decide)),
    if_neg (isDigit_ne hcd '"' (by decide)),
    if_neg (isDigit_ne hcd 't' (by decide)),
    if_neg (isDigit_ne hcd 'f' (by decide)),
    if_neg (isDigit_ne hcd 'n' (by decide)),
    if_neg (isDigit_ne hcd '-' (by decide)), hcd, if_pos]
  rw [show (c :: (cs' ++ rest)) = (c :: cs') ++ rest from rfl, ← hc,
    takeDigits_append _ _ (natChars_digits n) hrest]
  simp [digitsVal_natChars]

theorem parseV_num (f : Nat) (i : Int) (rest : List Char)
    (hrest : noLeadDigit rest = true) :
    parseV (f + 1) (serV (.num i) ++ rest) = some (.num i, rest) := by
  rw [serV, intChars]
  by_cases hi : i < 0
  · rw [if_pos hi, List.cons_append, parseV, skipWs_not_ws _ (by decide)]
    simp only [Char.reduceEq, reduceIte]
    rw [takeDigits_append _ _ (natChars_digits i.natAbs) hrest]
    obtain ⟨c, cs', hc⟩ := List.exists_cons_of_ne_nil (natChars_ne_nil i.natAbs)
    have hm : (match ((natChars i.natAbs).map fun c => c.toNat - 48, rest) with
        | ([], _) => none
        | (ds, cs2) => some (J.num (-(digitsVal ds : Int)), cs2))
        = some (J.num (-(digitsVal ((natChars i.natAbs).map fun c => c.toNat - 48) : Int)),
            rest) := by
      rw [hc]
      simp
    rw [hm, digitsVal_natChars]
    have h2 : -(i.natAbs : Int) = i := by omega
    rw [h2]
  · rw [if_neg hi]
    have hnn : ∃ n : Nat, i = (n : Int) := ⟨i.natAbs, by omega⟩
    obtain ⟨n, rfl⟩ := hnn
    have ha : (n : Int).natAbs = n := by omega
    rw [ha, parseV_natChars f n rest hrest]

theorem sizeV_pos (v : J) : 1 ≤ sizeV v := by
  cases v <;> simp [sizeV]

/-- The first character of a serialized value is not whitespace and is not a
closing bracket, brace or comma. -/
theorem serV_head (v : J) : ∃ c cs, serV v = c :: cs ∧ isWsChar c = false ∧
    c ≠ ']' ∧ c ≠ '\x7d' ∧ c ≠ ',' := by
  cases v with
  | null =>
    exact ⟨'n', ['u', 'l', 'l'], by simp [serV], by decide, by decide, by decide,
      by decide⟩
  | bool b =>
    cases b
    · exact ⟨'f', ['a', 'l', 's', 'e'], by simp [serV], by decide, by decide,
        by decide, by decide⟩
    · exact ⟨'t', ['r', 'u', 'e'], by simp [serV], by decide, by decide, by decide,
        by decide⟩
  | num i =>
    by_cases hi : i < 0
    · exact ⟨'-', natChars i.natAbs, by simp [serV, intChars, hi], by decide,
        by decide, by decide, by decide⟩
    · obtain ⟨c, cs', hc⟩ := List.exists_cons_of_ne_nil (natChars_ne_nil i.natAbs)
      have hcd : c.isDigit = true := natChars_digits _ c (by rw [hc]; simp)
      exact ⟨c, cs', by simp [serV, intChars, hi, hc], isDigit_not_ws hcd,
        isDigit_ne hcd ']' (by decide), isDigit_ne hcd '\x7d' (by decide),
        isDigit_ne hcd ',' (by decide)⟩
  | str s =>
    exact ⟨'"', escStr s.data ++ ['"'], by simp [serV], by decide, by decide,
      by decide, by decide⟩
  | arr xs =>
    cases xs with
    | nil =>
      exact ⟨'[', [']'], by simp [serV], by decide, by decide, by decide, by decide⟩
    | cons x xs =>
      exact ⟨'[', serV x ++ serArrTail xs ++ [']'], by simp [serV], by decide,
        by decide, by decide, by decide⟩
  | obj ms =>
    cases ms with
    | nil =>
      exact ⟨'\x7b', ['\x7d'], by simp [serV], by decide, by decide, by decide,
        by decide⟩
    | cons m ms =>
      exact ⟨'\x7b', serMember m ++ serObjTail ms ++ ['\x7d'], by simp [serV],
        by decide, by decide, by decide, by decide⟩

theorem parseV_null (f : Nat) (rest : List Char) :
    parseV (f + 1) (serV .null ++ rest) = some (.null, rest) := by
  simp [serV, parseV, skipWs, isWsChar]

theorem parseV_bool (f : Nat) (b : Bool) (rest : List Char) :
    parseV (f + 1) (serV (.bool b) ++ rest) = some (.bool b, rest) := by
  cases b <;> simp [serV, parseV, skipWs, isWsChar]

theorem parseV_str (f : Nat) (s : String) (rest : List Char) :
    parseV (f + 1) (serV (.str s) ++ rest) = some (.str s, rest) := by
  simp only [serV, List.cons_append, List.append_assoc]
  rw [parseV]
  simp [skipWs, isWsChar, parseStrBody_ser]

theorem parseV_arr_nil (f : Nat) (rest : List Char) :
    parseV (f + 1) (serV (.arr []) ++ rest) = some (.arr [], rest) := by
  simp [serV, parseV, skipWs, isWsChar]

theorem parseV_obj_nil (f : Nat) (rest : List Char) :
    parseV (f + 1) (serV (.obj []) ++ rest) = some (.obj [], rest) := by
  simp [serV, parseV, skipWs, isWsChar]

theorem parseV_arr_cons (f : Nat) (x : J) (xs : List J) (rest : List Char) :
    parseV (f + 1) (serV (.arr (x :: xs)) ++ rest) =
      match parseItems f (serV x ++ (serArrTail xs ++ ']' :: rest)) with
      | some (ys, cs3) => some (.arr ys, cs3)
      | none => none := by
  obtain ⟨c, cs, hser, hws, hbr, hbr2, hbr3⟩ := serV_head x
  rw [serV]
  simp only [List.cons_append, List.append_assoc]
  rw [parseV, skipWs_not_ws _ (by decide)]
  simp only [Char.reduceEq, reduceIte]
  rw [hser, List.cons_append, skipWs_not_ws _ hws]
  split
  · next cs2 heq =>
    rw [List.cons.injEq] at heq
    exact absurd heq.1 hbr
  · next heq =>
    rw [← List.cons_append, ← hser]
    simp [List.append_assoc]


theorem parseV_obj_cons (f : Nat) (m : String × J) (ms : List (String × J))
    (rest : List Char) :
    parseV (f + 1) (serV (.obj (m :: ms)) ++ rest) =
      match parseMembers f (serMember m ++ (serObjTail ms ++ '\x7d' :: rest)) with
      | some (ns, cs3) => some (.obj ns, cs3)
      | none => none := by
  obtain ⟨k, v⟩ := m
  rw [serV]
  simp only [List.cons_append, List.append_assoc]
  rw [parseV, skipWs_not_ws _ (by decide)]
  simp only [Char.reduceEq, reduceIte]
  rw [serMember]
  simp only [List.cons_append, List.append_assoc]
  rw [skipWs_not_ws _ (by decide)]
  simp [serMember, List.append_assoc]

theorem noLead_arrTail (xs : List J) (rest : List Char) :
    noLeadDigit (serArrTail xs ++ ']' :: rest) = true := by
  cases xs <;> simp [serArrTail, noLeadDigit]

theorem noLead_objTail (ms : List (String × J)) (rest : List Char) :
    noLeadDigit (serObjTail ms ++ '\x7d' :: rest) = true := by
  cases ms <;> simp [serObjTail, noLeadDigit]

/-- Round trip at every level, by strong induction on the parser fuel. -/
theorem parse_ser_all (f : Nat) :
    (∀ v rest, sizeV v ≤ f → noLeadDigit rest = true →
      parseV f (serV v ++ rest) = some (v, rest)) ∧
    (∀ x xs rest, 1 + sizeV x + sizeL xs ≤ f →
      parseItems f (serV x ++ (serArrTail xs ++ ']' :: rest)) = some (x :: xs, rest)) ∧
    (∀ k v ms rest, 1 + sizeV v + sizeM ms ≤ f →
      parseMembers f (serMember (k, v) ++ (serObjTail ms ++ '\x7d' :: rest)) =
        some ((k, v) :: ms, rest)) := by
  induction f using Nat.strong_induction_on with
  | _ f ih =>
  match f with
  | 0 =>
    refine ⟨fun v rest hs _ => absurd hs (by have := sizeV_pos v; omega),
      fun x xs rest hs => absurd hs (by have := sizeV_pos x; omega),
      fun k v ms rest hs => absurd hs (by have := sizeV_pos v; omega)⟩
  | g + 1 =>
    have ihV := (ih g (by omega)).1
    have ihI := (ih g (by omega)).2.1
    have ihM := (ih g (by omega)).2.2
    refine ⟨?_, ?_, ?_⟩
    · intro v rest hs hrest
      cases v with
      | null => exact parseV_null g rest
      | bool b => exact parseV_bool g b rest
      | num i => exact parseV_num g i rest hrest
      | str s => exact parseV_str g s rest
      | arr xs =>
        cases xs with
        | nil => exact parseV_arr_nil g rest
        | cons x xs =>
          rw [parseV_arr_cons, ihI x xs rest (by simp [sizeV, sizeL] at hs; omega)]
      | obj ms =>
        cases ms with
        | nil => exact parseV_obj_nil g rest
        | cons m ms =>
          obtain ⟨k, v⟩ := m
          rw [parseV_obj_cons, ihM k v ms rest (by simp [sizeV, sizeM] at hs; omega)]
    · intro x xs rest hs
      rw [parseItems, ihV x (serArrTail xs ++ ']' :: rest)
        (by have := sizeV_pos x; omega) (noLead_arrTail xs rest)]
      cases xs with
      | nil => simp [skipWs, isWsChar]
      | cons y ys =>
        simp only [serArrTail, List.cons_append, List.append_assoc]
        rw [skipWs_not_ws _ (by decide)]
        simp only [Char.reduceEq, reduceIte]
        rw [ihI y ys rest (by simp [sizeL] at hs; have := sizeV_pos x; omega)]
    · intro k v ms rest hs
      rw [parseMembers]
      rw [serMember]
      simp only [List.cons_append, List.append_assoc]
      rw [skipWs_not_ws _ (by decide)]
      simp only [Char.reduceEq, reduceIte]
      simp only [List.nil_append]
      rw [parseStrBody_ser]
      dsimp only
      rw [skipWs_not_ws _ (by decide)]
      simp only [Char.reduceEq, reduceIte]
      rw [ihV v (serObjTail ms ++ '\x7d' :: rest) (by have := sizeV_pos v; omega)
        (noLead_objTail ms rest)]
      dsimp only
      cases ms with
      | nil => simp [skipWs, isWsChar]
      | cons m' ms' =>
        obtain ⟨k', v'⟩ := m'
        simp only [serObjTail, List.cons_append, List.append_assoc]
        rw [skipWs_not_ws _ (by decide)]
        simp only [Char.reduceEq, reduceIte]
        rw [ihM k' v' ms' rest (by simp [sizeM] at hs; have := sizeV_pos v; omega)]


theorem intChars_ne_nil (i : Int) : intChars i ≠ [] := by
  unfold intChars
  split
  · simp
  · exact natChars_ne_nil _

mutual

theorem sizeV_le_serV (v : J) : sizeV v ≤ 2 * (serV v).length := by
  cases v with
  | null => simp [sizeV, serV]
  | bool b => cases b <;> simp [sizeV, serV]
  | num i =>
    obtain ⟨c, cs, hc⟩ := List.exists_cons_of_ne_nil (intChars_ne_nil i)
    simp [sizeV, serV, hc]
    omega
  | str s =>
    simp [sizeV, serV]
    omega
  | arr xs =>
    cases xs with
    | nil => simp [sizeV, sizeL, serV]
    | cons x xs =>
      have h1 := sizeV_le_serV x
      have h2 := sizeL_le_tail xs
      simp only [sizeV, sizeL, serV, List.length_cons, List.length_append]
      omega
  | obj ms =>
    cases ms with
    | nil => simp [sizeV, sizeM, serV]
    | cons m ms =>
      obtain ⟨k, v⟩ := m
      have h1 := sizeV_le_serV v
      have h2 := sizeM_le_tail ms
      simp only [sizeV, sizeM, serV, serMember, List.length_cons,
        List.length_append]
      omega

theorem sizeL_le_tail (xs : List J) : sizeL xs ≤ 2 * (serArrTail xs).length + 2 := by
  cases xs with
  | nil => simp [sizeL, serArrTail]
  | cons x xs =>
    have h1 := sizeV_le_serV x
    have h2 := sizeL_le_tail xs
    simp only [sizeL, serArrTail, List.length_cons, List.length_append]
    omega

theorem sizeM_le_tail (ms : List (String × J)) :
    sizeM ms ≤ 2 * (serObjTail ms).length + 2 := by
  cases ms with
  | nil => simp [sizeM, serObjTail]
  | cons m ms =>
    obtain ⟨k, v⟩ := m
    have h1 := sizeV_le_serV v
    have h2 := sizeM_le_tail ms
    simp only [sizeM, serObjTail, serMember, List.length_cons, List.length_append]
    omega

end

/-- Parsing a compact serialization always succeeds and returns the value. -/
theorem parse_serialize (v : J) : parseJson (serialize v) = some v := by
  have hb : sizeV v ≤ 2 * (serV v).length + 2 := by
    have := sizeV_le_serV v
    omega
  have hmain := (parse_ser_all (2 * (serV v).length + 2)).1 v [] hb (by decide)
  rw [List.append_nil] at hmain
  unfold parseJson serialize
  have hlen : (String.mk (serV v)).length = (serV v).length := rfl
  have hdata : (String.mk (serV v)).data = serV v := rfl
  rw [hlen, hdata, hmain]
  simp [skipWs]

/-! ## Generic helper lemmas for the claim theorems -/

theorem if_isEmpty_self (s : String) : (if s.isEmpty then "" else s) = s := by
  split
  · exact ((String.isEmpty_iff s).mp (by assumption)).symm
  · rfl

theorem isEmpty_false_of_ne {s : String} (h : ¬s = "") : s.isEmpty = false := by
  rw [← Bool.not_eq_true]
  intro hh
  exact h ((String.isEmpty_iff s).mp hh)

/-! ## Claim C10 -/

/-- Claim C10: in the PTY adapter, a chunk whose text is empty or whitespace-only
is forwarded verbatim to the opposite side, and no gateway call is made for
it (`wrap.rs::filter_text` returns before invoking the gateway). -/
theorem C10_whitespace_passthrough (g : Gateway) (chunk : String) (b : Bool)
    (h : isBlank chunk = true) :
    filter_text g chunk b = (chunk, []) ∧ pty_step g chunk b = chunk := by
  have hft : filter_text g chunk b = (chunk, []) := by
    unfold filter_text
    rw [h]
    simp
  exact ⟨hft, by unfold pty_step; rw [hft]; exact if_isEmpty_self chunk⟩

/-- Witness for C10 at the concrete whitespace chunk `" \n"`. -/
theorem C10_witness :
    filter_text g_block " \n" true = (" \n", []) ∧ pty_step g_block " \n" true = " \n" :=
  C10_whitespace_passthrough g_block " \n" true (by decide)

/-! ## Claim C8 -/

/-- Claim C8: in the PTY adapter, for every (non-skipped, hence non-whitespace)
chunk whose gateway outcome is `Blocked`, zero bytes from that chunk are
written to the opposite stream; for `Clean`/`Redacted` outcomes, exactly the
text returned by the gateway is written (writing nothing and writing the
empty string are the same bytes). -/
theorem C8_pty_write (g : Gateway) (chunk : String) (b : Bool)
    (h : isBlank chunk = false) :
    (∀ r md, g b chunk = .ok (.Blocked r md) → pty_step g chunk b = "") ∧
    (∀ t, g b chunk = .ok (.Clean t) → pty_step g chunk b = t) ∧
    (∀ t rs, g b chunk = .ok (.Redacted t rs) → pty_step g chunk b = t) := by
  refine ⟨fun r md hg => ?_, fun t hg => ?_, fun t rs hg => ?_⟩ <;>
    unfold pty_step filter_text <;> rw [h] <;> simp only [Bool.false_eq_true,
      if_false, hg] <;> exact if_isEmpty_self _

/-- Witness for C8: a blocking gateway writes nothing for chunk `"drop me"`;
an identity gateway writes the chunk back; a redacting gateway writes the
redacted text. -/
theorem C8_witness :
    pty_step g_block "drop me" true = "" ∧ pty_step g_clean "drop me" true = "drop me" ∧
    pty_step g_red "drop me" false = "[X]" :=
  ⟨(C8_pty_write g_block "drop me" true (by decide)).1 "policy" [] rfl,
    (C8_pty_write g_clean "drop me" true (by decide)).2.1 "drop me" rfl,
    (C8_pty_write g_red "drop me" false (by decide)).2.2 "[X]" ["ssn"] rfl⟩

/-! ## Claim C7 -/

/-- Counterexample to C7: with `--json` and a `Blocked` outcome the one-shot
tool exits 0, not 2 — `main.rs` only calls `exit(2)` on the non-JSON branch,
so the exit code is not independent of the structured-output flag. -/
theorem C7_counterexample :
    cli_exit_code g_block "x" true = 0 ∧ ¬cli_exit_code g_block "x" true = 2 :=
  ⟨rfl, by intro h; rw [show cli_exit_code g_block "x" true = 0 from rfl] at h; cases h⟩

/-- Claim C7, amended: the one-shot tool exits 0 on `Clean`/`Redacted`, 1 on
sanitizer error or empty (whitespace-only) input, and on `Blocked` exits 2
without `--json` but 0 with `--json` (the JSON branch prints the blocked
report and falls through to a normal exit). -/
theorem C7_exit_codes (g : Gateway) (input : String) (flag : Bool) :
    (isBlank input = true → cli_exit_code g input flag = 1) ∧
    (isBlank input = false →
      (∀ t, g true input = .ok (.Clean t) → cli_exit_code g input flag = 0) ∧
      (∀ t rs, g true input = .ok (.Redacted t rs) → cli_exit_code g input flag = 0) ∧
      (∀ r md, g true input = .ok (.Blocked r md) →
        cli_exit_code g input flag = if flag then 0 else 2) ∧
      (∀ e, g true input = .error e → cli_exit_code g input flag = 1)) := by
  constructor
  · intro h
    unfold cli_exit_code
    rw [h]
    simp
  · intro h
    refine ⟨fun t hg => ?_, fun t rs hg => ?_, fun r md hg => ?_, fun e hg => ?_⟩ <;>
      unfold cli_exit_code <;> rw [h] <;> simp [hg]

/-- Witness for the amended C7 at concrete inputs for each exit path. -/
theorem C7_witness :
    cli_exit_code g_clean " " false = 1 ∧ cli_exit_code g_clean "x" true = 0 ∧
    cli_exit_code g_red "x" false = 0 ∧ cli_exit_code g_block "x" false = 2 ∧
    cli_exit_code g_err "x" true = 1 :=
  ⟨(C7_exit_codes g_clean " " false).1 (by decide),
    ((C7_exit_codes g_clean "x" true).2 (by decide)).1 "x" rfl,
    ((C7_exit_codes g_red "x" false).2 (by decide)).2.1 "[X]" ["ssn"] rfl,
    ((C7_exit_codes g_block "x" false).2 (by decide)).2.2.1 "policy" [] rfl,
    ((C7_exit_codes g_err "x" true).2 (by decide)).2.2.2 "boom" rfl⟩

/-! ## Claim C9 -/

/-- Counterexample to C9: an HTTP body that is not JSON is *not* forwarded
byte-identically — `sanitize_llm_request` submits it to the gateway and
forwards the sanitized text instead.  With a redacting gateway, the
non-JSON body `"hello"` becomes `"[X]"`. -/
theorem C9_counterexample :
    parseJson "hello" = none ∧
    sanitize_llm_request g_red "hello" = .ok ("[X]", [(true, "hello")]) ∧
    ¬"[X]" = "hello" :=
  ⟨rfl, rfl, by decide⟩

/-- Claim C9, amended: a JSON-RPC line that fails to parse is forwarded
byte-identically with no gateway call; an HTTP body that fails to parse as
JSON is passed through one direct gateway call, and the forwarded content is
the gateway's returned text (byte-identical to the input only when the
gateway returns it unchanged), while `Blocked`/error short-circuit. -/
theorem C9_parse_failure (g : Gateway) (line body : String) (b : Bool) :
    (parseJson line = none → filter_jsonrpc g line b = (line, [])) ∧
    (parseJson body = none →
      (∀ t, g true body = .ok (.Clean t) →
        sanitize_llm_request g body = .ok (t, [(true, body)])) ∧
      (∀ t rs, g true body = .ok (.Redacted t rs) →
        sanitize_llm_request g body = .ok (t, [(true, body)])) ∧
      (∀ r md, g true body = .ok (.Blocked r md) →
        sanitize_llm_request g body = .error r) ∧
      (∀ e, g true body = .error e → sanitize_llm_request g body = .error e)) := by
  constructor
  · intro h
    unfold filter_jsonrpc
    rw [h]
  · intro h
    refine ⟨fun t hg => ?_, fun t rs hg => ?_, fun r md hg => ?_, fun e hg => ?_⟩ <;>
      unfold sanitize_llm_request <;> rw [h, hg]

/-- Witness for the amended C9: the unparseable line `"oops"` is forwarded
verbatim by the JSON-RPC adapter, and the non-JSON body `"hello"` goes
through exactly one direct gateway call. -/
theorem C9_witness :
    filter_jsonrpc g_red "oops" true = ("oops", []) ∧
    sanitize_llm_request g_red "hello" = .ok ("[X]", [(true, "hello")]) :=
  ⟨(C9_parse_failure g_red "oops" "hello" true).1 rfl,
    ((C9_parse_failure g_red "oops" "hello" true).2 rfl).2.1 "[X]" ["ssn"] rfl⟩

/-! ## Claim C4 -/

/-- Counterexample to C4: the body `{"foo":"bar"}` parses as JSON and is not
a structured chat-completion payload (no `messages`, `choices`, `message`,
`delta`, `content` or `text` field), yet the HTTP adapter does *not* treat it
as a single text payload: `sanitize_json_messages` finds nothing to
sanitize, so zero gateway calls are made (the claim demands one direct call,
whose trace would be `[(true, body)]` and whose redacted output would be
`"[X]"`) and the body is re-serialized unchanged. -/
theorem C4_counterexample :
    parseJson body_foo = some (J.obj [("foo", J.str "bar")]) ∧
    jGet (J.obj [("foo", J.str "bar")]) "messages" = none ∧
    jGet (J.obj [("foo", J.str "bar")]) "choices" = none ∧
    jGet (J.obj [("foo", J.str "bar")]) "content" = none ∧
    jGet (J.obj [("foo", J.str "bar")]) "text" = none ∧
    sanitize_llm_request g_red body_foo = .ok (body_foo, []) ∧
    ¬([] : Trace) = [(true, body_foo)] :=
  ⟨rfl, rfl, rfl, rfl, rfl, rfl, by simp⟩

/-- Claim C4, amended: only a body that does not parse as JSON is treated as a
single text payload (exactly one direct gateway call on the whole body); a
body that parses as JSON — chat-structured or not — is handed to the
recursive message sanitizer and re-serialized, which may make zero gateway
calls when no `content`/`text` field is reachable. -/
theorem C4_body_dispatch (g : Gateway) (body : String) :
    (parseJson body = none → ∀ res tr, sanitize_llm_request g body = .ok (res, tr) →
      tr = [(true, body)]) ∧
    (∀ v, parseJson body = some v →
      (∀ j tr, sanitize_json_messages g v true = .ok (j, tr) →
        sanitize_llm_request g body = .ok (serialize j, tr)) ∧
      (∀ e, sanitize_json_messages g v true = .error e →
        sanitize_llm_request g body = .error e)) := by
  constructor
  · intro h res tr hr
    unfold sanitize_llm_request at hr
    rw [h] at hr
    rcases hg : g true body with e | o
    · rw [hg] at hr
      cases hr
    · rw [hg] at hr
      cases o with
      | Clean t =>
        simp only [Except.ok.injEq, Prod.mk.injEq] at hr
        exact hr.2.symm
      | Redacted t rs =>
        simp only [Except.ok.injEq, Prod.mk.injEq] at hr
        exact hr.2.symm
      | Blocked r md => cases hr
  · intro v h
    constructor
    · intro j tr hs
      unfold sanitize_llm_request
      rw [h]
      simp [hs, Bind.bind, Except.bind]
    · intro e hs
      unfold sanitize_llm_request
      rw [h]
      simp [hs, Bind.bind, Except.bind]

/-- Witness for the amended C4: the non-JSON body `"hello"` yields trace
`[(true, "hello")]`; the parsed body `{"foo":"bar"}` goes through the
recursive sanitizer, which makes zero calls on it. -/
theorem C4_witness :
    ([(true, "hello")] : Trace) = [(true, "hello")] ∧
    sanitize_llm_request g_red body_foo = .ok (body_foo, []) :=
  ⟨(C4_body_dispatch g_red "hello").1 rfl "[X]" [(true, "hello")] rfl,
    by
      have h := ((C4_body_dispatch g_red body_foo).2 (J.obj [("foo", J.str "bar")])
        rfl).1 (J.obj [("foo", J.str "bar")]) [] rfl
      exact h⟩

/-- A gateway call record `p` made while processing a unit in direction `b`
that was answered successfully: the call used the unit's direction and
returned `Clean` or `Redacted`. -/
def okCall (g : Gateway) (b : Bool) (p : Bool × String) : Prop :=
  p.1 = b ∧ ((∃ t, g p.1 p.2 = .ok (.Clean t)) ∨ ∃ t rs, g p.1 p.2 = .ok (.Redacted t rs))

theorem filter_str_trace (f : Nat) (g : Gateway) (b : Bool) (s : String) :
    (filter_value_fuel f g (.str s) b).2 = [(b, s)] := by
  rcases hg : g b s with e | o
  · simp [filter_value_fuel, hg]
  · cases o <;> simp [filter_value_fuel, hg]

/-- Every gateway call recorded by the `filter_value` traversal uses the
direction of the unit being processed. -/
theorem filter_fuel_dir (f : Nat) (g : Gateway) (b : Bool) :
    (∀ v p, p ∈ (filter_value_fuel f g v b).2 → p.1 = b) ∧
    (∀ xs p, p ∈ (filter_list_fuel f g xs b).2 → p.1 = b) ∧
    (∀ fs p, p ∈ (filter_sel_fuel f g fs b).2 → p.1 = b) ∧
    (∀ fs p, p ∈ (filter_nest_fuel f g fs b).2 → p.1 = b) := by
  induction f using Nat.strong_induction_on with
  | _ f ih =>
  cases f with
  | zero =>
    refine ⟨fun v p hp => ?_, fun xs p hp => ?_, fun fs p hp => ?_, fun fs p hp => ?_⟩
    · cases v with
      | str s =>
        rw [filter_str_trace] at hp
        simp at hp
        rw [hp]
      | null => simp [filter_value_fuel] at hp
      | bool c => simp [filter_value_fuel] at hp
      | num n => simp [filter_value_fuel] at hp
      | arr es => simp [filter_value_fuel] at hp
      | obj ms => simp [filter_value_fuel] at hp
    · cases xs <;> simp [filter_list_fuel] at hp
    · cases fs <;> simp [filter_sel_fuel] at hp
    · cases fs <;> simp [filter_nest_fuel] at hp
  | succ f =>
    obtain ⟨ihV, ihL, ihS, ihN⟩ := ih f (Nat.lt_succ_self f)
    refine ⟨fun v p hp => ?_, fun xs p hp => ?_, fun fs p hp => ?_, fun fs p hp => ?_⟩
    · cases v with
      | str s =>
        rw [filter_str_trace] at hp
        simp at hp
        rw [hp]
      | null => simp [filter_value_fuel] at hp
      | bool c => simp [filter_value_fuel] at hp
      | num n => simp [filter_value_fuel] at hp
      | arr es =>
        rcases hl : filter_list_fuel f g es b with ⟨ys, t⟩
        simp only [filter_value_fuel, hl] at hp
        exact ihL es p (by rw [hl]; exact hp)
      | obj ms =>
        rcases h1 : filter_sel_fuel f g ms b with ⟨f1, t1⟩
        rcases h2 : filter_nest_fuel f g f1 b with ⟨f2, t2⟩
        simp only [filter_value_fuel, h1, h2] at hp
        rcases List.mem_append.mp hp with h | h
        · exact ihS ms p (by rw [h1]; exact h)
        · exact ihN f1 p (by rw [h2]; exact h)
    · cases xs with
      | nil => simp [filter_list_fuel] at hp
      | cons x xs =>
        rcases h1 : filter_value_fuel f g x b with ⟨y, t1⟩
        rcases h2 : filter_list_fuel f g xs b with ⟨ys, t2⟩
        simp only [filter_list_fuel, h1, h2] at hp
        rcases List.mem_append.mp hp with h | h
        · exact ihV x p (by rw [h1]; exact h)
        · exact ihL xs p (by rw [h2]; exact h)
    · cases fs with
      | nil => simp [filter_sel_fuel] at hp
      | cons kv rest =>
        obtain ⟨k, v⟩ := kv
        rcases h2 : filter_sel_fuel f g rest b with ⟨rest', t2⟩
        by_cases hk : (k = "content" || k = "text" || k = "value") = true
        · rcases h1 : filter_value_fuel f g v b with ⟨v', t1⟩
          simp only [filter_sel_fuel, hk, if_pos, h1, h2] at hp
          rcases List.mem_append.mp hp with h | h
          · exact ihV v p (by rw [h1]; exact h)
          · exact ihS rest p (by rw [h2]; exact h)
        · simp only [filter_sel_fuel, hk, Bool.false_eq_true, if_false, h2] at hp
          simp at hp
          exact ihS rest p (by rw [h2]; exact hp)
    · cases fs with
      | nil => simp [filter_nest_fuel] at hp
      | cons kv rest =>
        obtain ⟨k, v⟩ := kv
        rcases h2 : filter_nest_fuel f g rest b with ⟨rest', t2⟩
        by_cases hk : v.isObjOrArr = true
        · rcases h1 : filter_value_fuel f g v b with ⟨v', t1⟩
          simp only [filter_nest_fuel, hk, if_pos, h1, h2] at hp
          rcases List.mem_append.mp hp with h | h
          · exact ihV v p (by rw [h1]; exact h)
          · exact ihN rest p (by rw [h2]; exact h)
        · simp only [filter_nest_fuel, hk, Bool.false_eq_true, if_false, h2] at hp
          simp at hp
          exact ihN rest p (by rw [h2]; exact hp)


/-- Gateway calls recorded by the `text` step all succeeded in direction `b`. -/
theorem sjm_text_trace (g : Gateway) (fs : List (String × J)) (b : Bool)
    (fs2 : List (String × J)) (tr : Trace) (h : sjm_text g fs b = .ok (fs2, tr)) :
    ∀ p ∈ tr, okCall g b p := by
  induction fs generalizing fs2 tr with
  | nil =>
    simp [sjm_text] at h
    obtain ⟨-, h2⟩ := h
    subst h2
    simp
  | cons kv rest ih =>
    obtain ⟨k, v⟩ := kv
    by_cases hk : k = "text"
    · subst hk
      cases v with
      | str s =>
        rcases hg : g b s with e | o
        · simp [sjm_text, hg] at h
        · cases o with
          | Clean t =>
            simp [sjm_text, hg] at h
            obtain ⟨-, h2⟩ := h
            subst h2
            intro p hp
            simp at hp
            subst hp
            exact ⟨rfl, Or.inl ⟨t, hg⟩⟩
          | Redacted t rs =>
            simp [sjm_text, hg] at h
            obtain ⟨-, h2⟩ := h
            subst h2
            intro p hp
            simp at hp
            subst hp
            exact ⟨rfl, Or.inr ⟨t, rs, hg⟩⟩
          | Blocked r md => simp [sjm_text, hg] at h
      | null =>
        simp [sjm_text] at h
        obtain ⟨-, h2⟩ := h
        subst h2
        simp
      | bool c =>
        simp [sjm_text] at h
        obtain ⟨-, h2⟩ := h
        subst h2
        simp
      | num n =>
        simp [sjm_text] at h
        obtain ⟨-, h2⟩ := h
        subst h2
        simp
      | arr es =>
        simp [sjm_text] at h
        obtain ⟨-, h2⟩ := h
        subst h2
        simp
      | obj ms =>
        simp [sjm_text] at h
        obtain ⟨-, h2⟩ := h
        subst h2
        simp
    · rcases hrest : sjm_text g rest b with e | ⟨rest', t⟩
      · simp [sjm_text, hk, hrest, Bind.bind, Except.bind] at h
      · simp [sjm_text, hk, hrest, Bind.bind, Except.bind] at h
        rw [← h.2]
        exact ih rest' t hrest


/-- Every gateway call recorded on a successful run of the
`sanitize_json_messages` traversal used the unit's direction and returned
`Clean` or `Redacted` (Blocked and errors short-circuit the whole run). -/
theorem sjm_fuel_trace (f : Nat) (g : Gateway) (b : Bool) :
    (∀ v j tr, sjm_fuel f g v b = .ok (j, tr) → ∀ p ∈ tr, okCall g b p) ∧
    (∀ xs ys tr, sjm_list_fuel f g xs b = .ok (ys, tr) → ∀ p ∈ tr, okCall g b p) ∧
    (∀ fs fs2 tr, sjm_content_fuel f g fs b = .ok (fs2, tr) → ∀ p ∈ tr, okCall g b p) ∧
    (∀ key fs fs2 tr, sjm_key_fuel f g fs key b = .ok (fs2, tr) →
      ∀ p ∈ tr, okCall g b p) := by
  induction f using Nat.strong_induction_on with
  | _ f ih =>
  cases f with
  | zero =>
    refine ⟨fun v j tr h => ?_, fun xs ys tr h => ?_, fun fs fs2 tr h => ?_,
      fun key fs fs2 tr h => ?_⟩
    · cases v <;> simp [sjm_fuel] at h <;> obtain ⟨-, h2⟩ := h <;> subst h2 <;> simp
    · cases xs <;> simp [sjm_list_fuel] at h <;> obtain ⟨-, h2⟩ := h <;> subst h2 <;> simp
    · cases fs <;> simp [sjm_content_fuel] at h <;> obtain ⟨-, h2⟩ := h <;> subst h2 <;> simp
    · cases fs <;> simp [sjm_key_fuel] at h <;> obtain ⟨-, h2⟩ := h <;> subst h2 <;> simp
  | succ f =>
    obtain ⟨ihV, ihL, ihC, ihK⟩ := ih f (Nat.lt_succ_self f)
    refine ⟨fun v j tr h => ?_, fun xs ys tr h => ?_, fun fs fs2 tr h => ?_,
      fun key fs fs2 tr h => ?_⟩
    · cases v with
      | obj fields =>
        rcases h1 : sjm_content_fuel f g fields b with e | ⟨f1, t1⟩ <;>
          rw [sjm_fuel, h1] at h
        · simp [Bind.bind, Except.bind] at h
        simp only [Bind.bind, Except.bind] at h
        rcases h2 : sjm_text g f1 b with e | ⟨f2, t2⟩ <;> rw [h2] at h
        · simp at h
        simp only at h
        rcases h3 : sjm_key_fuel f g f2 "messages" b with e | ⟨f3, t3⟩ <;> rw [h3] at h
        · simp at h
        simp only at h
        rcases h4 : sjm_key_fuel f g f3 "choices" b with e | ⟨f4, t4⟩ <;> rw [h4] at h
        · simp at h
        simp only at h
        rcases h5 : sjm_key_fuel f g f4 "message" b with e | ⟨f5, t5⟩ <;> rw [h5] at h
        · simp at h
        simp only at h
        rcases h6 : sjm_key_fuel f g f5 "delta" b with e | ⟨f6, t6⟩ <;> rw [h6] at h
        · simp at h
        simp only [Except.ok.injEq, Prod.mk.injEq] at h
        obtain ⟨-, h7⟩ := h
        subst h7
        intro p hp
        simp only [List.mem_append] at hp
        rcases hp with ((((hh | hh) | hh) | hh) | hh) | hh
        · exact ihC fields f1 t1 h1 p hh
        · exact sjm_text_trace g f1 b f2 t2 h2 p hh
        · exact ihK "messages" f2 f3 t3 h3 p hh
        · exact ihK "choices" f3 f4 t4 h4 p hh
        · exact ihK "message" f4 f5 t5 h5 p hh
        · exact ihK "delta" f5 f6 t6 h6 p hh
      | arr elems =>
        rcases h1 : sjm_list_fuel f g elems b with e | ⟨es, t⟩ <;>
          rw [sjm_fuel, h1] at h
        · simp [Bind.bind, Except.bind] at h
        simp only [Bind.bind, Except.bind, Except.ok.injEq, Prod.mk.injEq] at h
        obtain ⟨-, h2⟩ := h
        subst h2
        exact ihL elems es t h1
      | null =>
        simp [sjm_fuel] at h
        obtain ⟨-, h2⟩ := h
        subst h2
        simp
      | bool c =>
        simp [sjm_fuel] at h
        obtain ⟨-, h2⟩ := h
        subst h2
        simp
      | num n =>
        simp [sjm_fuel] at h
        obtain ⟨-, h2⟩ := h
        subst h2
        simp
      | str s =>
        simp [sjm_fuel] at h
        obtain ⟨-, h2⟩ := h
        subst h2
        simp
    · cases xs with
      | nil =>
        simp [sjm_list_fuel] at h
        obtain ⟨-, h2⟩ := h
        subst h2
        simp
      | cons x xs =>
        rcases h1 : sjm_fuel f g x b with e | ⟨y, t1⟩ <;> rw [sjm_list_fuel, h1] at h
        · simp [Bind.bind, Except.bind] at h
        simp only [Bind.bind, Except.bind] at h
        rcases h2 : sjm_list_fuel f g xs b with e | ⟨ys2, t2⟩ <;> rw [h2] at h
        · simp at h
        simp only [Except.ok.injEq, Prod.mk.injEq] at h
        obtain ⟨-, h3⟩ := h
        subst h3
        intro p hp
        rcases List.mem_append.mp hp with hh | hh
        · exact ihV x y t1 h1 p hh
        · exact ihL xs ys2 t2 h2 p hh
    · cases fs with
      | nil =>
        simp [sjm_content_fuel] at h
        obtain ⟨-, h2⟩ := h
        subst h2
        simp
      | cons kv rest =>
        obtain ⟨k, v⟩ := kv
        by_cases hk : k = "content"
        · subst hk
          cases v with
          | str s =>
            rcases hg : g b s with e | o
            · simp [sjm_content_fuel, hg] at h
            · cases o with
              | Clean t =>
                simp [sjm_content_fuel, hg] at h
                obtain ⟨-, h2⟩ := h
                subst h2
                intro p hp
                simp at hp
                subst hp
                exact ⟨rfl, Or.inl ⟨t, hg⟩⟩
              | Redacted t rs =>
                simp [sjm_content_fuel, hg] at h
                obtain ⟨-, h2⟩ := h
                subst h2
                intro p hp
                simp at hp
                subst hp
                exact ⟨rfl, Or.inr ⟨t, rs, hg⟩⟩
              | Blocked r md => simp [sjm_content_fuel, hg] at h
          | arr xs =>
            rcases h1 : sjm_list_fuel f g xs b with e | ⟨ys, t⟩ <;>
              rw [sjm_content_fuel] at h <;> simp only [reduceIte] at h <;>
              rw [h1] at h
            · simp [Bind.bind, Except.bind] at h
            simp only [Bind.bind, Except.bind, Except.ok.injEq, Prod.mk.injEq] at h
            obtain ⟨-, h2⟩ := h
            subst h2
            exact ihL xs ys t h1
          | null =>
            simp [sjm_content_fuel] at h
            obtain ⟨-, h2⟩ := h
            subst h2
            simp
          | bool c =>
            simp [sjm_content_fuel] at h
            obtain ⟨-, h2⟩ := h
            subst h2
            simp
          | num n =>
            simp [sjm_content_fuel] at h
            obtain ⟨-, h2⟩ := h
            subst h2
            simp
          | obj ms =>
            simp [sjm_content_fuel] at h
            obtain ⟨-, h2⟩ := h
            subst h2
            simp
        · rcases h1 : sjm_content_fuel f g rest b with e | ⟨rest', t⟩
          · simp [sjm_content_fuel, hk, h1, Bind.bind, Except.bind] at h
          · simp [sjm_content_fuel, hk, h1, Bind.bind, Except.bind] at h
            obtain ⟨-, h2⟩ := h
            subst h2
            exact ihC rest rest' t h1
    · cases fs with
      | nil =>
        simp [sjm_key_fuel] at h
        obtain ⟨-, h2⟩ := h
        subst h2
        simp
      | cons kv rest =>
        obtain ⟨k, v⟩ := kv
        by_cases hk : k = key
        · subst hk
          rcases h1 : sjm_fuel f g v b with e | ⟨v', t⟩
          · simp [sjm_key_fuel, h1, Bind.bind, Except.bind] at h
          · simp [sjm_key_fuel, h1, Bind.bind, Except.bind] at h
            obtain ⟨-, h2⟩ := h
            subst h2
            exact ihV v v' t h1
        · rcases h1 : sjm_key_fuel f g rest key b with e | ⟨rest', t⟩
          · simp [sjm_key_fuel, hk, h1, Bind.bind, Except.bind] at h
          · simp [sjm_key_fuel, hk, h1, Bind.bind, Except.bind] at h
            obtain ⟨-, h2⟩ := h
            subst h2
            exact ihK key rest rest' t h1

/-- Any per-call property holds of a `modifyField` trace as soon as it holds
of every trace the inner update can produce. -/
theorem modifyField_trace {P : Bool × String → Prop} (v : J) (k : String)
    (fn : J → J × Trace) (hf : ∀ u p, p ∈ (fn u).2 → P p) :
    ∀ p ∈ (modifyField v k fn).2, P p := by
  cases v with
  | obj fields =>
    rcases hl : lookupField fields k with _ | u
    · simp [modifyField, hl]
    · rcases hu : fn u with ⟨u', t⟩
      simp only [modifyField, hl, hu]
      intro p hp
      exact hf u p (by rw [hu]; exact hp)
  | null => simp [modifyField]
  | bool c => simp [modifyField]
  | num n => simp [modifyField]
  | str s => simp [modifyField]
  | arr es => simp [modifyField]

/-- Every gateway call of `filter_value` uses the given direction. -/
theorem filter_value_dir (g : Gateway) (v : J) (b : Bool) :
    ∀ p ∈ (filter_value g v b).2, p.1 = b :=
  (filter_fuel_dir (sizeV v) g b).1 v

/-- Every gateway call of the method dispatch uses the given direction. -/
theorem locate_method_dir (g : Gateway) (msg : J) (b : Bool) :
    ∀ p ∈ (locate_method g msg b).2, p.1 = b := by
  have hmod : ∀ (v : J) (k : String) (p : Bool × String),
      p ∈ (modifyField v k fun a => filter_value g a b).2 → p.1 = b :=
    fun v k => modifyField_trace v k _ fun a => filter_value_dir g a b
  have hmod2 : ∀ (v : J) (sub : String) (p : Bool × String),
      p ∈ (modifyField v "params" fun pp =>
        modifyField pp sub fun a => filter_value g a b).2 → p.1 = b :=
    fun v sub => modifyField_trace v "params" _ fun u => hmod u sub
  unfold locate_method
  split
  · exact hmod2 msg "arguments"
  · exact hmod2 msg "prompt"
  · exact hmod2 msg "messages"
  · simp

/-- Every gateway call made for one JSON-RPC envelope uses the direction of
the pipeline that processes it. -/
theorem filter_msg_dir (g : Gateway) (msg : J) (b : Bool) :
    ∀ p ∈ (filter_msg g msg b).2, p.1 = b := by
  rcases h1 : locate_method g msg b with ⟨m1, t1⟩
  rcases h2 : modifyField m1 "result" (fun r => filter_value g r b) with ⟨m2, t2⟩
  simp only [filter_msg, h1, h2]
  intro p hp
  rcases List.mem_append.mp hp with h | h
  · exact locate_method_dir g msg b p (by rw [h1]; exact h)
  · exact modifyField_trace m1 "result" _ (fun u => filter_value_dir g u b) p
      (by rw [h2]; exact h)


/-- Forward characterization of `sanitize_llm_request` on a JSON body. -/
theorem sllr_json_ok (g : Gateway) (body : String) (v j : J) (tr : Trace)
    (hl : parseJson body = some v)
    (hs : sanitize_json_messages g v true = .ok (j, tr)) :
    sanitize_llm_request g body = .ok (serialize j, tr) := by
  unfold sanitize_llm_request
  rw [hl]
  simp [hs, Bind.bind, Except.bind]

/-- `sanitize_llm_request` propagates the traversal's error on a JSON body. -/
theorem sllr_json_err (g : Gateway) (body : String) (v : J) (e : String)
    (hl : parseJson body = some v)
    (hs : sanitize_json_messages g v true = .error e) :
    sanitize_llm_request g body = .error e := by
  unfold sanitize_llm_request
  rw [hl]
  simp [hs, Bind.bind, Except.bind]

/-- Forward characterization of `sanitize_llm_response` on a JSON body. -/
theorem sllo_json_ok (g : Gateway) (body : String) (v j : J) (tr : Trace)
    (hl : parseJson body = some v)
    (hs : sanitize_json_messages g v false = .ok (j, tr)) :
    sanitize_llm_response g body = .ok (serialize j, tr) := by
  unfold sanitize_llm_response
  rw [hl]
  simp [hs, Bind.bind, Except.bind]

/-- `sanitize_llm_response` propagates the traversal's error on a JSON body. -/
theorem sllo_json_err (g : Gateway) (body : String) (v : J) (e : String)
    (hl : parseJson body = some v)
    (hs : sanitize_json_messages g v false = .error e) :
    sanitize_llm_response g body = .error e := by
  unfold sanitize_llm_response
  rw [hl]
  simp [hs, Bind.bind, Except.bind]

/-- On a non-JSON body, `sanitize_llm_request` is one direct gateway call. -/
theorem sllr_plain (g : Gateway) (body : String) (hl : parseJson body = none) :
    sanitize_llm_request g body =
      match g true body with
      | .ok (.Clean t) => .ok (t, [(true, body)])
      | .ok (.Redacted t _) => .ok (t, [(true, body)])
      | .ok (.Blocked reason _) => .error reason
      | .error e => .error e := by
  unfold sanitize_llm_request
  rw [hl]

/-- On a non-JSON body, `sanitize_llm_response` is one direct gateway call. -/
theorem sllo_plain (g : Gateway) (body : String) (hl : parseJson body = none) :
    sanitize_llm_response g body =
      match g false body with
      | .ok (.Clean t) => .ok (t, [(false, body)])
      | .ok (.Redacted t _) => .ok (t, [(false, body)])
      | .ok (.Blocked reason _) => .error reason
      | .error e => .error e := by
  unfold sanitize_llm_response
  rw [hl]

/-- Every gateway call recorded for a successfully sanitized request body
used direction input and returned `Clean`/`Redacted`. -/
theorem sllr_trace_ok (g : Gateway) (body res : String) (tr : Trace)
    (h : sanitize_llm_request g body = .ok (res, tr)) :
    ∀ p ∈ tr, okCall g true p := by
  rcases hl : parseJson body with _ | v
  · unfold sanitize_llm_request at h
    rw [hl] at h
    rcases hg : g true body with e | o
    · rw [hg] at h
      cases h
    · rw [hg] at h
      cases o with
      | Clean t =>
        simp only [Except.ok.injEq, Prod.mk.injEq] at h
        rw [← h.2]
        intro p hp
        simp at hp
        subst hp
        exact ⟨rfl, Or.inl ⟨t, hg⟩⟩
      | Redacted t rs =>
        simp only [Except.ok.injEq, Prod.mk.injEq] at h
        rw [← h.2]
        intro p hp
        simp at hp
        subst hp
        exact ⟨rfl, Or.inr ⟨t, rs, hg⟩⟩
      | Blocked r md => cases h
  · rcases hs : sanitize_json_messages g v true with e | ⟨j, t⟩
    · rw [sllr_json_err g body v e hl hs] at h
      cases h
    · rw [sllr_json_ok g body v j t hl hs] at h
      simp only [Except.ok.injEq, Prod.mk.injEq] at h
      rw [← h.2]
      exact (sjm_fuel_trace (sizeV v) g true).1 v j t hs

/-- Every gateway call recorded for a successfully sanitized response body
used direction output and returned `Clean`/`Redacted`. -/
theorem sllo_trace_ok (g : Gateway) (body res : String) (tr : Trace)
    (h : sanitize_llm_response g body = .ok (res, tr)) :
    ∀ p ∈ tr, okCall g false p := by
  rcases hl : parseJson body with _ | v
  · unfold sanitize_llm_response at h
    rw [hl] at h
    rcases hg : g false body with e | o
    · rw [hg] at h
      cases h
    · rw [hg] at h
      cases o with
      | Clean t =>
        simp only [Except.ok.injEq, Prod.mk.injEq] at h
        rw [← h.2]
        intro p hp
        simp at hp
        subst hp
        exact ⟨rfl, Or.inl ⟨t, hg⟩⟩
      | Redacted t rs =>
        simp only [Except.ok.injEq, Prod.mk.injEq] at h
        rw [← h.2]
        intro p hp
        simp at hp
        subst hp
        exact ⟨rfl, Or.inr ⟨t, rs, hg⟩⟩
      | Blocked r md => cases h
  · rcases hs : sanitize_json_messages g v false with e | ⟨j, t⟩
    · rw [sllo_json_err g body v e hl hs] at h
      cases h
    · rw [sllo_json_ok g body v j t hl hs] at h
      simp only [Except.ok.injEq, Prod.mk.injEq] at h
      rw [← h.2]
      exact (sjm_fuel_trace (sizeV v) g false).1 v j t hs

/-! ## Claim C2 -/

/-- Counterexample to C2: the whitespace chunk `" "` originates as user
input and reaches the opposite side verbatim (the PTY adapter writes it),
yet zero gateway calls were made for it — contradicting "reaches the
opposite side only if it passed through exactly one gateway call for its
direction, or that call errored". -/
theorem C2_counterexample :
    pty_step g_clean " " true = " " ∧ (filter_text g_clean " " true).2 = [] :=
  ⟨rfl, rfl⟩

/-- Claim C2, amended: gateway mediation per adapter.  PTY: a chunk either is
whitespace-only and is forwarded verbatim with no gateway call, or passes
through exactly one gateway call, made in its pipeline's direction.
JSON-RPC: every gateway call made for a line uses that pipeline's
direction.  HTTP: every gateway call recorded for a request (resp. response)
body that the adapter goes on to forward used direction input
(resp. output) and returned `Clean`/`Redacted`. -/
theorem C2_gateway_mediation (g : Gateway) :
    (∀ chunk b, (isBlank chunk = true ∧ filter_text g chunk b = (chunk, [])) ∨
      (isBlank chunk = false ∧ (filter_text g chunk b).2 = [(b, chunk)])) ∧
    (∀ line b p, p ∈ (filter_jsonrpc g line b).2 → p.1 = b) ∧
    (∀ body res tr, sanitize_llm_request g body = .ok (res, tr) →
      ∀ p ∈ tr, okCall g true p) ∧
    (∀ body res tr, sanitize_llm_response g body = .ok (res, tr) →
      ∀ p ∈ tr, okCall g false p) := by
  refine ⟨fun chunk b => ?_, fun line b p hp => ?_, fun body res tr h => ?_,
    fun body res tr h => ?_⟩
  · cases hb : isBlank chunk
    · refine Or.inr ⟨rfl, ?_⟩
      unfold filter_text
      rw [hb]
      rcases hg : g b chunk with e | o
      · simp [hg]
      · cases o <;> simp [hg]
    · refine Or.inl ⟨rfl, ?_⟩
      unfold filter_text
      rw [hb]
      simp
  · rcases hl : parseJson line with _ | msg
    · simp [filter_jsonrpc, hl] at hp
    · rcases hm : filter_msg g msg b with ⟨m2, t⟩
      simp only [filter_jsonrpc, hl, hm] at hp
      exact filter_msg_dir g msg b p (by rw [hm]; exact hp)
  · exact sllr_trace_ok g body res tr h
  · exact sllo_trace_ok g body res tr h

/-- Witness for the amended C2: the non-whitespace chunk `"hi"` gets exactly
one input-direction call; the call recorded for the line with
`params.arguments = "hi"` is input-direction; the plain body `"hello"`
forwarded by the HTTP adapter passed one successful input call. -/
theorem C2_witness :
    ((isBlank "hi" = true ∧ filter_text g_clean "hi" true = ("hi", [])) ∨
      (isBlank "hi" = false ∧ (filter_text g_clean "hi" true).2 = [(true, "hi")])) ∧
    (true, "hi").1 = true ∧ okCall g_clean true (true, "hello") :=
  ⟨(C2_gateway_mediation g_clean).1 "hi" true,
    (C2_gateway_mediation g_clean).2.1 line_args_str true (true, "hi")
      (by rw [show (filter_jsonrpc g_clean line_args_str true).2 = [(true, "hi")] from rfl]; simp),
    (C2_gateway_mediation g_clean).2.2.1 "hello" "hello" [(true, "hello")] rfl
      (true, "hello") (by simp)⟩



/-! ## Claim C5 -/

/-- Claim C5: per-transport failure policy on sanitizer errors.  PTY
(`filter_text`) and JSON-RPC (`filter_value` on a payload string) fail open:
the original unmodified content is forwarded.  HTTP fails closed in both
directions: when request-body sanitization errors, `handle_request` answers
with the 400 error response and sends nothing upstream; when
response-body sanitization errors, it answers with the 500 error response,
so the upstream content is never returned to the client; and every gateway
call recorded for a request (resp. response) body that is forwarded
returned `Clean`/`Redacted`, so content whose gateway call errored is never
forwarded in either direction. -/
theorem C5_fail_policy (g : Gateway) :
    (∀ text b e, g b text = .error e → (filter_text g text b).1 = text) ∧
    (∀ s b e, g b s = .error e → filter_value g (.str s) b = (.str s, [(b, s)])) ∧
    (∀ send upstream req e, ¬req.body = "" →
      sanitize_llm_request g req.body = .error e →
      handle_request g send upstream req =
        (error_response 400 ("Input blocked: " ++ e), 0)) ∧
    (∀ send upstream req resp e s tr, ¬req.body = "" →
      sanitize_llm_request g req.body = .ok (s, tr) →
      send { method := req.method
             pathAndQuery := upstream ++ req.pathAndQuery
             headers := req.headers.filter fun h => h.1 != "host"
             body := s } = .ok resp →
      ¬resp.body = "" →
      sanitize_llm_response g resp.body = .error e →
      handle_request g send upstream req =
        (error_response 500 ("Output blocked: " ++ e), 1)) ∧
    (∀ body res tr, sanitize_llm_request g body = .ok (res, tr) →
      ∀ p ∈ tr, okCall g true p) ∧
    (∀ body res tr, sanitize_llm_response g body = .ok (res, tr) →
      ∀ p ∈ tr, okCall g false p) := by
  refine ⟨fun text b e hg => ?_, fun s b e hg => ?_,
    fun send upstream req e hne hs => ?_,
    fun send upstream req resp e s tr hne hreq hsend hrb hresp => ?_,
    fun body res tr h => ?_, fun body res tr h => ?_⟩
  · unfold filter_text
    cases hb : isBlank text <;> simp [hg]
  · simp [filter_value, filter_value_fuel, hg]
  · unfold handle_request
    rw [isEmpty_false_of_ne hne]
    simp [hs]
  · unfold handle_request
    rw [isEmpty_false_of_ne hne]
    simp [hreq, hsend, isEmpty_false_of_ne hrb, hresp]
  · exact sllr_trace_ok g body res tr h
  · exact sllo_trace_ok g body res tr h

/-- Witness for C5: with the always-failing gateway the PTY chunk and the
JSON-RPC payload string survive unchanged and the HTTP adapter rejects the
request with status 400 and zero upstream sends; with the
output-failing gateway the upstream's `"pong"` body is replaced by the 500
error response. -/
theorem C5_witness :
    (filter_text g_err "hi" true).1 = "hi" ∧
    filter_value g_err (.str "hi") false = (.str "hi", [(false, "hi")]) ∧
    handle_request g_err send_fail "http://u" req_secret =
      (error_response 400 "Input blocked: boom", 0) ∧
    handle_request g_out_err send_ok "http://u" req_secret =
      (error_response 500 "Output blocked: boom", 1) ∧
    okCall g_clean true (true, "hello") ∧
    okCall g_clean false (false, "hello") :=
  ⟨(C5_fail_policy g_err).1 "hi" true "boom" rfl,
    (C5_fail_policy g_err).2.1 "hi" false "boom" rfl,
    (C5_fail_policy g_err).2.2.1 send_fail "http://u" req_secret "boom"
      (by decide) rfl,
    (C5_fail_policy g_out_err).2.2.2.1 send_ok "http://u" req_secret
      { status := 200, headers := [], body := "pong" } "boom" "secret stuff"
      [(true, "secret stuff")] (by decide) rfl rfl (by decide) rfl,
    (C5_fail_policy g_clean).2.2.2.2.1 "hello" "hello" [(true, "hello")] rfl
      (true, "hello") (by simp),
    (C5_fail_policy g_clean).2.2.2.2.2 "hello" "hello" [(false, "hello")] rfl
      (false, "hello") (by simp)⟩



/-! ## Claim C3 -/

theorem lookupField_setField_ne (fs : List (String × J)) (k k' : String) (nv : J)
    (h : ¬k' = k) : lookupField (setField fs k nv) k' = lookupField fs k' := by
  induction fs with
  | nil => simp [setField, lookupField]
  | cons kv rest ih =>
    obtain ⟨k0, v0⟩ := kv
    by_cases h0 : k0 = k
    · subst h0
      have hne : ¬k0 = k' := fun hh => h (hh ▸ rfl)
      simp [setField, lookupField, hne]
    · by_cases h1 : k0 = k'
      · subst h1
        simp [setField, lookupField, h0]
      · simp [setField, lookupField, h0, h1, ih]

theorem lookupField_setField_self (fs : List (String × J)) (k : String) (u nv : J)
    (h : lookupField fs k = some u) : lookupField (setField fs k nv) k = some nv := by
  induction fs with
  | nil => simp [lookupField] at h
  | cons kv rest ih =>
    obtain ⟨k0, v0⟩ := kv
    by_cases h0 : k0 = k
    · subst h0
      simp [setField, lookupField]
    · simp [lookupField, h0] at h
      simp [setField, lookupField, h0, ih h]

theorem jGet_modifyField_ne (v : J) (k k' : String) (fn : J → J × Trace)
    (h : ¬k' = k) : jGet (modifyField v k fn).1 k' = jGet v k' := by
  cases v with
  | obj fields =>
    rcases hl : lookupField fields k with _ | u
    · simp [modifyField, hl]
    · rcases hu : fn u with ⟨u', t⟩
      simp [modifyField, hl, hu, jGet, lookupField_setField_ne fields k k' u' h]
  | null => simp [modifyField]
  | bool c => simp [modifyField]
  | num n => simp [modifyField]
  | str s => simp [modifyField]
  | arr es => simp [modifyField]

theorem modifyField_eq_of_lookup {fields : List (String × J)} {k : String} {u : J}
    (fn : J → J × Trace) (h : lookupField fields k = some u) :
    modifyField (.obj fields) k fn =
      (.obj (setField fields k (fn u).1), (fn u).2) := by
  rcases hu : fn u with ⟨u', t⟩
  simp [modifyField, h, hu]

theorem locate_method_get_ne (g : Gateway) (msg : J) (b : Bool) (k : String)
    (hk : ¬k = "params") : jGet (locate_method g msg b).1 k = jGet msg k := by
  unfold locate_method
  split
  · exact jGet_modifyField_ne msg "params" k _ hk
  · exact jGet_modifyField_ne msg "params" k _ hk
  · exact jGet_modifyField_ne msg "params" k _ hk
  · rfl

theorem modifyField_none {fields : List (String × J)} {k : String}
    (fn : J → J × Trace) (h : lookupField fields k = none) :
    modifyField (.obj fields) k fn = (.obj fields, []) := by
  simp [modifyField, h]

theorem filter_msg_fst (g : Gateway) (msg : J) (b : Bool) :
    (filter_msg g msg b).1 =
      (modifyField (locate_method g msg b).1 "result"
        fun r => filter_value g r b).1 := by
  rcases h1 : locate_method g msg b with ⟨m1, t1⟩
  rcases h2 : modifyField m1 "result" (fun r => filter_value g r b) with ⟨m2, t2⟩
  simp [filter_msg, h1, h2]

theorem filter_msg_snd (g : Gateway) (msg : J) (b : Bool) :
    (filter_msg g msg b).2 =
      (locate_method g msg b).2 ++
        (modifyField (locate_method g msg b).1 "result"
          fun r => filter_value g r b).2 := by
  rcases h1 : locate_method g msg b with ⟨m1, t1⟩
  rcases h2 : modifyField m1 "result" (fun r => filter_value g r b) with ⟨m2, t2⟩
  simp [filter_msg, h1, h2]

/-- Counterexample to C3: the structurally valid `tools/call` line whose
only payload string is `"x"`, sitting inside an array under the selected key
`content`, makes *two* gateway calls for that one string: the first object
pass filters the value of `content`, and the blanket second pass re-filters
it because it is array-valued. -/
theorem C3_counterexample :
    parseJson line_double = some (J.obj [("method", J.str "tools/call"),
      ("params", J.obj [("arguments",
        J.obj [("content", J.arr [J.str "x"])])])]) ∧
    (filter_jsonrpc g_clean line_double true).2 = [(true, "x"), (true, "x")] ∧
    ¬(filter_jsonrpc g_clean line_double true).2.length = 1 :=
  ⟨rfl, rfl, by
    rw [show (filter_jsonrpc g_clean line_double true).2 =
      [(true, "x"), (true, "x")] from rfl]
    simp⟩

/-- Claim C3, amended: for a structurally valid envelope, (1) fields outside
`params` and `result` are never changed in value; (2) for a recognized
method, fields of `params` other than the located sub-key are never changed
in value; (3) a *direct string* at the documented path (here
`params.arguments` of `tools/call`, with no `result` field) is passed to the
gateway exactly once per line — but a payload string nested below a selected
key whose value is an array or object may be passed twice, as the
counterexample shows, so "exactly once" holds only in the direct-string
form. -/
theorem C3_locator_calls (g : Gateway) (msg : J) (b : Bool) :
    (∀ k, ¬k = "params" → ¬k = "result" →
      jGet (filter_msg g msg b).1 k = jGet msg k) ∧
    (∀ m sub, jGet msg "method" = some (.str m) →
      ((m = "tools/call" ∧ sub = "arguments") ∨
        (m = "completion/complete" ∧ sub = "prompt") ∨
        (m = "sampling/createMessage" ∧ sub = "messages")) →
      ∀ k, ¬k = sub →
        ((jGet (filter_msg g msg b).1 "params").bind fun p => jGet p k) =
          ((jGet msg "params").bind fun p => jGet p k)) ∧
    (jGet msg "method" = some (.str "tools/call") → jGet msg "result" = none →
      ∀ pv s, jGet msg "params" = some pv → jGet pv "arguments" = some (.str s) →
      (filter_msg g msg b).2 = [(b, s)]) := by
  refine ⟨fun k hkp hkr => ?_, fun m sub hm hd k hk => ?_, fun hm hres pv s hpv hargs => ?_⟩
  · rcases hlm : locate_method g msg b with ⟨m1, t1⟩
    rcases h2 : modifyField m1 "result" (fun r => filter_value g r b) with ⟨m2, t2⟩
    simp only [filter_msg, hlm, h2]
    have e1 : jGet m2 k = jGet m1 k := by
      have hm2 : m2 = (modifyField m1 "result" fun r => filter_value g r b).1 := by
        rw [h2]
      rw [hm2]
      exact jGet_modifyField_ne m1 "result" k _ hkr
    have e2 : jGet m1 k = jGet msg k := by
      have hm1 : m1 = (locate_method g msg b).1 := by
        rw [hlm]
      rw [hm1]
      exact locate_method_get_ne g msg b k hkp
    rw [e1, e2]
  · rw [filter_msg_fst, jGet_modifyField_ne _ "result" "params" _ (by decide)]
    have hloc : locate_method g msg b = modifyField msg "params" fun p =>
        modifyField p sub fun a => filter_value g a b := by
      rcases hd with ⟨hm1, hs1⟩ | ⟨hm1, hs1⟩ | ⟨hm1, hs1⟩ <;> subst hm1 <;> subst hs1 <;>
        unfold locate_method <;> rw [hm] <;> rfl
    rw [hloc]
    cases msg with
    | obj fields =>
      rcases hp : lookupField fields "params" with _ | pv
      · simp [modifyField, jGet, hp]
      · rw [modifyField_eq_of_lookup _ hp]
        simp only [jGet]
        rw [lookupField_setField_self fields "params" pv _ hp, hp]
        simp only [Option.some_bind]
        exact jGet_modifyField_ne pv sub k _ hk
    | null => simp [jGet] at hm
    | bool c => simp [jGet] at hm
    | num n => simp [jGet] at hm
    | str s => simp [jGet] at hm
    | arr es => simp [jGet] at hm
  · cases msg with
    | obj fields =>
      simp only [jGet] at hm hres hpv
      have hloc : locate_method g (J.obj fields) b =
          modifyField (J.obj fields) "params" fun p =>
            modifyField p "arguments" fun a => filter_value g a b := by
        unfold locate_method
        simp only [jGet]
        rw [hm]
        rfl
      cases pv with
      | obj pfields =>
        simp only [jGet] at hargs
        rw [filter_msg_snd, hloc, modifyField_eq_of_lookup _ hpv]
        dsimp only
        rw [modifyField_eq_of_lookup _ hargs]
        dsimp only
        rw [modifyField_none _ (by
          rw [lookupField_setField_ne fields "params" "result" _ (by decide)]
          exact hres)]
        simp [filter_value, filter_str_trace]
      | null => simp [jGet] at hargs
      | bool c => simp [jGet] at hargs
      | num n => simp [jGet] at hargs
      | str s2 => simp [jGet] at hargs
      | arr es => simp [jGet] at hargs
    | null => simp [jGet] at hpv
    | bool c => simp [jGet] at hpv
    | num n => simp [jGet] at hpv
    | str s2 => simp [jGet] at hpv
    | arr es => simp [jGet] at hpv


/-- Witness for the amended C3 at the `tools/call` line with a direct-string
`params.arguments`: the unrelated field `id` is untouched, other `params`
keys are untouched, and the direct payload string is called exactly once. -/
theorem C3_witness :
    jGet (filter_msg g_clean msg_args true).1 "id" = jGet msg_args "id" ∧
    ((jGet (filter_msg g_clean msg_args true).1 "params").bind
        fun p => jGet p "other") =
      ((jGet msg_args "params").bind fun p => jGet p "other") ∧
    (filter_msg g_clean msg_args true).2 = [(true, "hi")] :=
  ⟨(C3_locator_calls g_clean msg_args true).1 "id" (by decide) (by decide),
    (C3_locator_calls g_clean msg_args true).2.1 "tools/call" "arguments" rfl
      (Or.inl ⟨rfl, rfl⟩) "other" (by decide),
    (C3_locator_calls g_clean msg_args true).2.2 rfl rfl
      (J.obj [("arguments", J.str "hi")]) "hi" rfl rfl⟩

/-! ## Claim C6 -/

/-- Claim C6: in the JSON-RPC adapter, a payload string whose outcome is
`Blocked` is replaced in place by the literal sentinel `"[BLOCKED]"` (with
exactly that one gateway call recorded); the emitted line for any parsed
envelope is the serialization of the filtered envelope and parses back as
structured data; and the line loop emits exactly one output line per input
line — no line is ever dropped. -/
theorem C6_blocked_sentinel (g : Gateway) :
    (∀ s b r md, g b s = .ok (.Blocked r md) →
      filter_value g (.str s) b = (.str "[BLOCKED]", [(b, s)])) ∧
    (∀ line b msg, parseJson line = some msg →
      parseJson (filter_jsonrpc g line b).1 = some (filter_msg g msg b).1) ∧
    (∀ lines b, (mcp_run g lines b).length = lines.length) := by
  refine ⟨fun s b r md hg => ?_, fun line b msg h => ?_, fun lines b => ?_⟩
  · simp [filter_value, filter_value_fuel, hg]
  · rcases hm : filter_msg g msg b with ⟨m2, t⟩
    simp only [filter_jsonrpc, h, hm]
    rw [parse_serialize]
  · simp [mcp_run]

/-- Witness for C6 at the spec's own example: `params.arguments.content =
"SECRET"` under a blocking gateway yields the sentinel in place and a
still-parseable output line, and one line in gives one line out. -/
theorem C6_witness :
    filter_value g_block (.str "SECRET") true =
      (.str "[BLOCKED]", [(true, "SECRET")]) ∧
    parseJson (filter_jsonrpc g_block line_secret true).1 =
      some (filter_msg g_block msg_secret true).1 ∧
    (mcp_run g_block [line_secret] true).length = [line_secret].length :=
  ⟨(C6_blocked_sentinel g_block).1 "SECRET" true "policy" [] rfl,
    (C6_blocked_sentinel g_block).2.1 line_secret true msg_secret rfl,
    (C6_blocked_sentinel g_block).2.2 [line_secret] true⟩

/-! ## Claim C1 -/

/-- When request-body sanitization fails (Blocked outcome or sanitizer
error), `handle_request` short-circuits to the 400 error response with zero
upstream sends. -/
theorem handle_request_input_err (g : Gateway)
    (send : HttpReq → Except String HttpResp) (upstream : String)
    (req : HttpReq) (e : String) (hne : ¬req.body = "")
    (hs : sanitize_llm_request g req.body = .error e) :
    handle_request g send upstream req =
      (error_response 400 ("Input blocked: " ++ e), 0) := by
  unfold handle_request
  rw [isEmpty_false_of_ne hne]
  simp [hs]

/-- Claim C1: for every request whose non-empty body sanitization yields a
`Blocked` outcome or a sanitizer error (exactly the cases in which
`sanitize_llm_request` returns `Err`), the HTTP adapter returns a 4xx
response whose JSON body carries a `message` field (inside the `error`
object), and zero requests are sent upstream. -/
theorem C1_http_blocked_no_upstream (g : Gateway)
    (send : HttpReq → Except String HttpResp) (upstream : String)
    (req : HttpReq) (e : String) (hne : ¬req.body = "")
    (hs : sanitize_llm_request g req.body = .error e) :
    (handle_request g send upstream req).2 = 0 ∧
    400 ≤ (handle_request g send upstream req).1.status ∧
    (handle_request g send upstream req).1.status < 500 ∧
    ∃ m, ((parseJson (handle_request g send upstream req).1.body).bind fun i =>
      (jGet i "error").bind fun o => jGet o "message") = some (.str m) := by
  rw [handle_request_input_err g send upstream req e hne hs]
  refine ⟨rfl, by simp [error_response], by simp [error_response],
    ⟨"Input blocked: " ++ e, ?_⟩⟩
  simp only [error_response]
  rw [parse_serialize]
  simp [jGet, lookupField]

/-- Witness for C1: a blocking gateway rejects the plain-text request body
with status 400, a `message` field, and zero upstream sends. -/
theorem C1_witness :
    (handle_request g_block send_fail "http://u" req_secret).2 = 0 ∧
    400 ≤ (handle_request g_block send_fail "http://u" req_secret).1.status ∧
    (handle_request g_block send_fail "http://u" req_secret).1.status < 500 ∧
    ∃ m, ((parseJson
        (handle_request g_block send_fail "http://u" req_secret).1.body).bind
      fun i => (jGet i "error").bind fun o => jGet o "message") =
        some (.str m) :=
  C1_http_blocked_no_upstream g_block send_fail "http://u" req_secret "policy"
    (by decide) rfl


/-! ## Fuel sufficiency -/

/-- Every `J` value has positive structural size. -/
theorem one_le_sizeV (v : J) : 1 ≤ sizeV v := by
  cases v <;> simp [sizeV]

/-- The `filter_value` traversal preserves structural size at every fuel:
strings map to strings, arrays to same-length arrays, objects to same-keyed
objects.  (Together with `filter_value_fuel_congr` this certifies that the
fuel `sizeV value` used by `filter_value` is sufficient.) -/
theorem filter_value_fuel_size (g : Gateway) (f : Nat) :
    (∀ v b, sizeV (filter_value_fuel f g v b).1 = sizeV v) ∧
    (∀ xs b, sizeL (filter_list_fuel f g xs b).1 = sizeL xs) ∧
    (∀ ms b, sizeM (filter_sel_fuel f g ms b).1 = sizeM ms) ∧
    (∀ ms b, sizeM (filter_nest_fuel f g ms b).1 = sizeM ms) := by
  induction f with
  | zero =>
    refine ⟨fun v b => ?_, fun xs b => ?_, fun ms b => ?_, fun ms b => ?_⟩
    · cases v with
      | str s =>
        simp only [filter_value_fuel]
        rcases g b s with e | r
        · rfl
        · cases r <;> rfl
      | arr xs => rfl
      | obj ms => rfl
      | null => rfl
      | bool c => rfl
      | num n => rfl
    · cases xs <;> rfl
    · cases ms <;> rfl
    · cases ms <;> rfl
  | succ f ih =>
    obtain ⟨ihv, ihl, ihs, ihn⟩ := ih
    refine ⟨fun v b => ?_, fun xs b => ?_, fun ms b => ?_, fun ms b => ?_⟩
    · cases v with
      | str s =>
        simp only [filter_value_fuel]
        rcases g b s with e | r
        · rfl
        · cases r <;> rfl
      | arr xs =>
        rcases h : filter_list_fuel f g xs b with ⟨es, t⟩
        have e1 := ihl xs b
        rw [h] at e1
        simp only [filter_value_fuel, h, sizeV]
        simpa using e1
      | obj ms =>
        rcases h1 : filter_sel_fuel f g ms b with ⟨f1, t1⟩
        rcases h2 : filter_nest_fuel f g f1 b with ⟨f2, t2⟩
        have e1 := ihs ms b
        have e2 := ihn f1 b
        rw [h1] at e1
        rw [h2] at e2
        simp only [filter_value_fuel, h1, h2, sizeV]
        simp only at e1 e2
        rw [e2, e1]
      | null => rfl
      | bool c => rfl
      | num n => rfl
    · cases xs with
      | nil => rfl
      | cons x xs =>
        rcases h1 : filter_value_fuel f g x b with ⟨y, t1⟩
        rcases h2 : filter_list_fuel f g xs b with ⟨ys, t2⟩
        have e1 := ihv x b
        have e2 := ihl xs b
        rw [h1] at e1
        rw [h2] at e2
        simp only [filter_list_fuel, h1, h2, sizeL]
        simp only at e1 e2
        rw [e1, e2]
    · cases ms with
      | nil => rfl
      | cons kv rest =>
        obtain ⟨k, v⟩ := kv
        rcases h2 : filter_sel_fuel f g rest b with ⟨rest2, t2⟩
        have e2 := ihs rest b
        rw [h2] at e2
        simp only at e2
        cases hC : decide (k = "content") || decide (k = "text") ||
            decide (k = "value") with
        | true =>
          rcases h1 : filter_value_fuel f g v b with ⟨v2, t1⟩
          have e1 := ihv v b
          rw [h1] at e1
          simp only at e1
          simp only [filter_sel_fuel]
          rw [if_pos hC]
          simp [h1, h2, sizeM, e1, e2]
        | false =>
          simp only [filter_sel_fuel]
          rw [if_neg (by simp [hC])]
          simp [h2, sizeM, e2]
    · cases ms with
      | nil => rfl
      | cons kv rest =>
        obtain ⟨k, v⟩ := kv
        rcases h2 : filter_nest_fuel f g rest b with ⟨rest2, t2⟩
        have e2 := ihn rest b
        rw [h2] at e2
        simp only at e2
        cases hC : v.isObjOrArr with
        | true =>
          rcases h1 : filter_value_fuel f g v b with ⟨v2, t1⟩
          have e1 := ihv v b
          rw [h1] at e1
          simp only at e1
          simp only [filter_nest_fuel]
          rw [if_pos hC]
          simp [h1, h2, sizeM, e1, e2]
        | false =>
          simp only [filter_nest_fuel]
          rw [if_neg (by simp [hC])]
          simp [h2, sizeM, e2]

/-- One extra unit of fuel changes nothing once the fuel covers the
structural size: the step lemma behind `filter_value_fuel_congr`. -/
theorem filter_value_fuel_step (g : Gateway) (f : Nat) :
    (∀ v b, sizeV v ≤ f →
      filter_value_fuel (f + 1) g v b = filter_value_fuel f g v b) ∧
    (∀ xs b, sizeL xs ≤ f →
      filter_list_fuel (f + 1) g xs b = filter_list_fuel f g xs b) ∧
    (∀ ms b, sizeM ms ≤ f →
      filter_sel_fuel (f + 1) g ms b = filter_sel_fuel f g ms b) ∧
    (∀ ms b, sizeM ms ≤ f →
      filter_nest_fuel (f + 1) g ms b = filter_nest_fuel f g ms b) := by
  induction f with
  | zero =>
    refine ⟨fun v b h => absurd (le_trans (one_le_sizeV v) h) (by simp),
      fun xs b h => ?_, fun ms b h => ?_, fun ms b h => ?_⟩
    · cases xs with
      | nil => rfl
      | cons x xs => simp [sizeL] at h
    · cases ms with
      | nil => rfl
      | cons kv rest =>
        obtain ⟨k, v⟩ := kv
        simp [sizeM] at h
    · cases ms with
      | nil => rfl
      | cons kv rest =>
        obtain ⟨k, v⟩ := kv
        simp [sizeM] at h
  | succ f ih =>
    obtain ⟨ihv, ihl, ihs, ihn⟩ := ih
    refine ⟨fun v b h => ?_, fun xs b h => ?_, fun ms b h => ?_,
      fun ms b h => ?_⟩
    · cases v with
      | str s => rfl
      | arr xs =>
        have hx : sizeL xs ≤ f := by simp [sizeV] at h; omega
        simp only [filter_value_fuel, ihl xs b hx]
      | obj ms =>
        have hm : sizeM ms ≤ f := by simp [sizeV] at h; omega
        rcases hs : filter_sel_fuel f g ms b with ⟨f1, t1⟩
        have hf1 : sizeM f1 ≤ f := by
          have := (filter_value_fuel_size g f).2.2.1 ms b
          rw [hs] at this
          simp only at this
          omega
        rcases hn : filter_nest_fuel f g f1 b with ⟨f2, t2⟩
        have es : filter_sel_fuel (f + 1) g ms b = (f1, t1) := by
          rw [ihs ms b hm, hs]
        have en : filter_nest_fuel (f + 1) g f1 b = (f2, t2) := by
          rw [ihn f1 b hf1, hn]
        simp only [filter_value_fuel, es, en, hs, hn]
      | null => rfl
      | bool c => rfl
      | num n => rfl
    · cases xs with
      | nil => rfl
      | cons x xs =>
        have hx : sizeV x ≤ f := by simp [sizeL] at h; omega
        have hxs : sizeL xs ≤ f := by simp [sizeL] at h; omega
        simp only [filter_list_fuel, ihv x b hx, ihl xs b hxs]
    · cases ms with
      | nil => rfl
      | cons kv rest =>
        obtain ⟨k, v⟩ := kv
        have hv : sizeV v ≤ f := by simp [sizeM] at h; omega
        have hr : sizeM rest ≤ f := by simp [sizeM] at h; omega
        simp only [filter_sel_fuel, ihv v b hv, ihs rest b hr]
    · cases ms with
      | nil => rfl
      | cons kv rest =>
        obtain ⟨k, v⟩ := kv
        have hv : sizeV v ≤ f := by simp [sizeM] at h; omega
        have hr : sizeM rest ≤ f := by simp [sizeM] at h; omega
        simp only [filter_nest_fuel, ihv v b hv, ihn rest b hr]

/-- Any fuel at least `sizeV value` computes exactly `filter_value`: the
fuel used by the wrapper is sufficient, so the fuel-indexed definition
agrees with the source's unfueled recursion. -/
theorem filter_value_fuel_congr (g : Gateway) (v : J) (b : Bool) (f : Nat)
    (h : sizeV v ≤ f) : filter_value_fuel f g v b = filter_value g v b := by
  unfold filter_value
  obtain ⟨k, rfl⟩ : ∃ k, f = sizeV v + k := ⟨f - sizeV v, by omega⟩
  clear h
  induction k with
  | zero => rfl
  | succ k ihk =>
    have e : sizeV v + (k + 1) = (sizeV v + k) + 1 := by omega
    rw [e, (filter_value_fuel_step g (sizeV v + k)).1 v b (by omega), ihk]

/-- Witness for `filter_value_fuel_congr` at surplus fuel on a nested
object. -/
theorem filter_value_fuel_congr_witness :
    sizeV (J.obj [("content", J.str "hi")]) ≤ 50 ∧
    filter_value_fuel 50 g_red (J.obj [("content", J.str "hi")]) true =
      filter_value g_red (J.obj [("content", J.str "hi")]) true :=
  ⟨by decide,
    filter_value_fuel_congr g_red (J.obj [("content", J.str "hi")]) true 50
      (by decide)⟩


/-- The `text` step of the HTTP message sanitizer preserves structural size
whenever it succeeds. -/
theorem sjm_text_size (g : Gateway) :
    ∀ ms b ms2 t, sjm_text g ms b = .ok (ms2, t) → sizeM ms2 = sizeM ms := by
  intro ms
  induction ms with
  | nil =>
    intro b ms2 t h
    simp only [sjm_text, Except.ok.injEq, Prod.mk.injEq] at h
    obtain ⟨h1, -⟩ := h
    rw [← h1]
  | cons kv rest ih =>
    obtain ⟨k, v⟩ := kv
    intro b ms2 t h
    simp only [sjm_text] at h
    by_cases hk : k = "text"
    · rw [if_pos hk] at h
      split at h
      · split at h
        · simp only [Except.ok.injEq, Prod.mk.injEq] at h
          obtain ⟨h1, -⟩ := h
          rw [← h1]
          simp [sizeM, sizeV]
        · simp only [Except.ok.injEq, Prod.mk.injEq] at h
          obtain ⟨h1, -⟩ := h
          rw [← h1]
          simp [sizeM, sizeV]
        · simp at h
        · simp at h
      · simp only [Except.ok.injEq, Prod.mk.injEq] at h
        obtain ⟨h1, -⟩ := h
        rw [← h1]
    · rw [if_neg hk] at h
      rcases hr : sjm_text g rest b with e | p
      · rw [hr] at h
        exact absurd h (by simp [Bind.bind, Except.bind])
      · obtain ⟨rest2, t2⟩ := p
        rw [hr] at h
        simp only [Bind.bind, Except.bind, Except.ok.injEq,
          Prod.mk.injEq] at h
        obtain ⟨h1, -⟩ := h
        rw [← h1]
        simp [sizeM, ih b rest2 t2 hr]


/-- The full HTTP message-sanitizer traversal preserves structural size at
every fuel whenever it succeeds.  (Together with `sjm_fuel_congr` this
certifies that the fuel `sizeV json` used by `sanitize_json_messages` is
sufficient.) -/
theorem sjm_fuel_size (g : Gateway) (f : Nat) :
    (∀ v b j t, sjm_fuel f g v b = .ok (j, t) → sizeV j = sizeV v) ∧
    (∀ xs b ys t, sjm_list_fuel f g xs b = .ok (ys, t) →
      sizeL ys = sizeL xs) ∧
    (∀ ms b ms2 t, sjm_content_fuel f g ms b = .ok (ms2, t) →
      sizeM ms2 = sizeM ms) ∧
    (∀ ms key b ms2 t, sjm_key_fuel f g ms key b = .ok (ms2, t) →
      sizeM ms2 = sizeM ms) := by
  induction f with
  | zero =>
    refine ⟨fun v b j t h => ?_, fun xs b ys t h => ?_,
      fun ms b ms2 t h => ?_, fun ms key b ms2 t h => ?_⟩
    · cases v <;>
        (simp only [sjm_fuel, Except.ok.injEq, Prod.mk.injEq] at h;
          obtain ⟨h1, -⟩ := h; rw [← h1])
    · cases xs <;>
        (simp only [sjm_list_fuel, Except.ok.injEq, Prod.mk.injEq] at h;
          obtain ⟨h1, -⟩ := h; rw [← h1])
    · cases ms <;>
        (simp only [sjm_content_fuel, Except.ok.injEq, Prod.mk.injEq] at h;
          obtain ⟨h1, -⟩ := h; rw [← h1])
    · cases ms <;>
        (simp only [sjm_key_fuel, Except.ok.injEq, Prod.mk.injEq] at h;
          obtain ⟨h1, -⟩ := h; rw [← h1])
  | succ f ih =>
    obtain ⟨ihv, ihl, ihc, ihk⟩ := ih
    refine ⟨fun v b j t h => ?_, fun xs b ys t h => ?_,
      fun ms b ms2 t h => ?_, fun ms key b ms2 t h => ?_⟩
    · cases v with
      | null =>
        simp only [sjm_fuel, Except.ok.injEq, Prod.mk.injEq] at h
        obtain ⟨h1, -⟩ := h
        rw [← h1]
      | bool c =>
        simp only [sjm_fuel, Except.ok.injEq, Prod.mk.injEq] at h
        obtain ⟨h1, -⟩ := h
        rw [← h1]
      | num n =>
        simp only [sjm_fuel, Except.ok.injEq, Prod.mk.injEq] at h
        obtain ⟨h1, -⟩ := h
        rw [← h1]
      | str s =>
        simp only [sjm_fuel, Except.ok.injEq, Prod.mk.injEq] at h
        obtain ⟨h1, -⟩ := h
        rw [← h1]
      | arr xs =>
        rcases hl : sjm_list_fuel f g xs b with e | p
        · simp [sjm_fuel, hl, Bind.bind, Except.bind] at h
        · obtain ⟨ys2, t2⟩ := p
          simp only [sjm_fuel, hl, Bind.bind, Except.bind, Except.ok.injEq,
            Prod.mk.injEq] at h
          obtain ⟨h1, -⟩ := h
          rw [← h1]
          simp [sizeV, ihl xs b ys2 t2 hl]
      | obj fields =>
        rcases h1 : sjm_content_fuel f g fields b with e | p1
        · simp [sjm_fuel, h1, Bind.bind, Except.bind] at h
        · obtain ⟨f1, t1⟩ := p1
          rcases h2 : sjm_text g f1 b with e | p2
          · simp [sjm_fuel, h1, h2, Bind.bind, Except.bind] at h
          · obtain ⟨f2, t2⟩ := p2
            rcases h3 : sjm_key_fuel f g f2 "messages" b with e | p3
            · simp [sjm_fuel, h1, h2, h3, Bind.bind, Except.bind] at h
            · obtain ⟨f3, t3⟩ := p3
              rcases h4 : sjm_key_fuel f g f3 "choices" b with e | p4
              · simp [sjm_fuel, h1, h2, h3, h4, Bind.bind, Except.bind] at h
              · obtain ⟨f4, t4⟩ := p4
                rcases h5 : sjm_key_fuel f g f4 "message" b with e | p5
                · simp [sjm_fuel, h1, h2, h3, h4, h5, Bind.bind,
                    Except.bind] at h
                · obtain ⟨f5, t5⟩ := p5
                  rcases h6 : sjm_key_fuel f g f5 "delta" b with e | p6
                  · simp [sjm_fuel, h1, h2, h3, h4, h5, h6, Bind.bind,
                      Except.bind] at h
                  · obtain ⟨f6, t6⟩ := p6
                    simp only [sjm_fuel, h1, h2, h3, h4, h5, h6, Bind.bind,
                      Except.bind, Except.ok.injEq, Prod.mk.injEq] at h
                    obtain ⟨hj, -⟩ := h
                    rw [← hj]
                    simp only [sizeV]
                    rw [ihk f5 "delta" b f6 t6 h6,
                      ihk f4 "message" b f5 t5 h5,
                      ihk f3 "choices" b f4 t4 h4,
                      ihk f2 "messages" b f3 t3 h3,
                      sjm_text_size g f1 b f2 t2 h2,
                      ihc fields b f1 t1 h1]
    · cases xs with
      | nil =>
        simp only [sjm_list_fuel, Except.ok.injEq, Prod.mk.injEq] at h
        obtain ⟨h1, -⟩ := h
        rw [← h1]
      | cons x xs =>
        rcases h1 : sjm_fuel f g x b with e | p1
        · simp [sjm_list_fuel, h1, Bind.bind, Except.bind] at h
        · obtain ⟨y, t1⟩ := p1
          rcases h2 : sjm_list_fuel f g xs b with e | p2
          · simp [sjm_list_fuel, h1, h2, Bind.bind, Except.bind] at h
          · obtain ⟨ys2, t2⟩ := p2
            simp only [sjm_list_fuel, h1, h2, Bind.bind, Except.bind,
              Except.ok.injEq, Prod.mk.injEq] at h
            obtain ⟨hy, -⟩ := h
            rw [← hy]
            simp [sizeL, ihv x b y t1 h1, ihl xs b ys2 t2 h2]
    · cases ms with
      | nil =>
        simp only [sjm_content_fuel, Except.ok.injEq, Prod.mk.injEq] at h
        obtain ⟨h1, -⟩ := h
        rw [← h1]
      | cons kv rest =>
        obtain ⟨k, v⟩ := kv
        simp only [sjm_content_fuel] at h
        by_cases hk : k = "content"
        · rw [if_pos hk] at h
          split at h
          · split at h
            · simp only [Except.ok.injEq, Prod.mk.injEq] at h
              obtain ⟨h1, -⟩ := h
              rw [← h1]
              simp [sizeM, sizeV]
            · simp only [Except.ok.injEq, Prod.mk.injEq] at h
              obtain ⟨h1, -⟩ := h
              rw [← h1]
              simp [sizeM, sizeV]
            · simp at h
            · simp at h
          · rename_i xs2
            rcases hl : sjm_list_fuel f g xs2 b with e | p
            · rw [hl] at h
              simp [Bind.bind, Except.bind] at h
            · obtain ⟨ys2, t2⟩ := p
              rw [hl] at h
              simp only [Bind.bind, Except.bind, Except.ok.injEq,
                Prod.mk.injEq] at h
              obtain ⟨h1, -⟩ := h
              rw [← h1]
              simp [sizeM, sizeV, ihl xs2 b ys2 t2 hl]
          · simp only [Except.ok.injEq, Prod.mk.injEq] at h
            obtain ⟨h1, -⟩ := h
            rw [← h1]
        · rw [if_neg hk] at h
          rcases hr : sjm_content_fuel f g rest b with e | p
          · rw [hr] at h
            simp [Bind.bind, Except.bind] at h
          · obtain ⟨rest2, t2⟩ := p
            rw [hr] at h
            simp only [Bind.bind, Except.bind, Except.ok.injEq,
              Prod.mk.injEq] at h
            obtain ⟨h1, -⟩ := h
            rw [← h1]
            simp [sizeM, ihc rest b rest2 t2 hr]
    · cases ms with
      | nil =>
        simp only [sjm_key_fuel, Except.ok.injEq, Prod.mk.injEq] at h
        obtain ⟨h1, -⟩ := h
        rw [← h1]
      | cons kv rest =>
        obtain ⟨k, v⟩ := kv
        simp only [sjm_key_fuel] at h
        by_cases hk : k = key
        · rw [if_pos hk] at h
          rcases hv : sjm_fuel f g v b with e | p
          · rw [hv] at h
            simp [Bind.bind, Except.bind] at h
          · obtain ⟨v2, t2⟩ := p
            rw [hv] at h
            simp only [Bind.bind, Except.bind, Except.ok.injEq,
              Prod.mk.injEq] at h
            obtain ⟨h1, -⟩ := h
            rw [← h1]
            simp [sizeM, ihv v b v2 t2 hv]
        · rw [if_neg hk] at h
          rcases hr : sjm_key_fuel f g rest key b with e | p
          · rw [hr] at h
            simp [Bind.bind, Except.bind] at h
          · obtain ⟨rest2, t2⟩ := p
            rw [hr] at h
            simp only [Bind.bind, Except.bind, Except.ok.injEq,
              Prod.mk.injEq] at h
            obtain ⟨h1, -⟩ := h
            rw [← h1]
            simp [sizeM, ihk rest key b rest2 t2 hr]


/-- One extra unit of fuel changes nothing once the fuel covers the
structural size: the step lemma behind `sjm_fuel_congr`. -/
theorem sjm_fuel_step (g : Gateway) (f : Nat) :
    (∀ v b, sizeV v ≤ f → sjm_fuel (f + 1) g v b = sjm_fuel f g v b) ∧
    (∀ xs b, sizeL xs ≤ f →
      sjm_list_fuel (f + 1) g xs b = sjm_list_fuel f g xs b) ∧
    (∀ ms b, sizeM ms ≤ f →
      sjm_content_fuel (f + 1) g ms b = sjm_content_fuel f g ms b) ∧
    (∀ ms key b, sizeM ms ≤ f →
      sjm_key_fuel (f + 1) g ms key b = sjm_key_fuel f g ms key b) := by
  induction f with
  | zero =>
    refine ⟨fun v b h => absurd (le_trans (one_le_sizeV v) h) (by simp),
      fun xs b h => ?_, fun ms b h => ?_, fun ms key b h => ?_⟩
    · cases xs with
      | nil => rfl
      | cons x xs => simp [sizeL] at h
    · cases ms with
      | nil => rfl
      | cons kv rest =>
        obtain ⟨k, v⟩ := kv
        simp [sizeM] at h
    · cases ms with
      | nil => rfl
      | cons kv rest =>
        obtain ⟨k, v⟩ := kv
        simp [sizeM] at h
  | succ f ih =>
    obtain ⟨ihv, ihl, ihc, ihk⟩ := ih
    refine ⟨fun v b h => ?_, fun xs b h => ?_, fun ms b h => ?_,
      fun ms key b h => ?_⟩
    · cases v with
      | null => rfl
      | bool c => rfl
      | num n => rfl
      | str s => rfl
      | arr xs =>
        have hx : sizeL xs ≤ f := by simp [sizeV] at h; omega
        simp only [sjm_fuel, ihl xs b hx]
      | obj fields =>
        have hm : sizeM fields ≤ f := by simp [sizeV] at h; omega
        rcases h1 : sjm_content_fuel f g fields b with e | p1
        · simp [sjm_fuel, ihc fields b hm, h1, Bind.bind, Except.bind]
        · obtain ⟨f1, t1⟩ := p1
          have szf1 : sizeM f1 = sizeM fields :=
            (sjm_fuel_size g f).2.2.1 fields b f1 t1 h1
          rcases h2 : sjm_text g f1 b with e | p2
          · simp [sjm_fuel, ihc fields b hm, h1, h2, Bind.bind, Except.bind]
          · obtain ⟨f2, t2⟩ := p2
            have szf2 : sizeM f2 = sizeM f1 := sjm_text_size g f1 b f2 t2 h2
            rcases h3 : sjm_key_fuel f g f2 "messages" b with e | p3
            · simp [sjm_fuel, ihc fields b hm, h1, h2,
                ihk f2 "messages" b (by omega), h3, Bind.bind, Except.bind]
            · obtain ⟨f3, t3⟩ := p3
              have szf3 : sizeM f3 = sizeM f2 :=
                (sjm_fuel_size g f).2.2.2 f2 "messages" b f3 t3 h3
              rcases h4 : sjm_key_fuel f g f3 "choices" b with e | p4
              · simp [sjm_fuel, ihc fields b hm, h1, h2,
                  ihk f2 "messages" b (by omega), h3,
                  ihk f3 "choices" b (by omega), h4, Bind.bind, Except.bind]
              · obtain ⟨f4, t4⟩ := p4
                have szf4 : sizeM f4 = sizeM f3 :=
                  (sjm_fuel_size g f).2.2.2 f3 "choices" b f4 t4 h4
                rcases h5 : sjm_key_fuel f g f4 "message" b with e | p5
                · simp [sjm_fuel, ihc fields b hm, h1, h2,
                    ihk f2 "messages" b (by omega), h3,
                    ihk f3 "choices" b (by omega), h4,
                    ihk f4 "message" b (by omega), h5, Bind.bind,
                    Except.bind]
                · obtain ⟨f5, t5⟩ := p5
                  have szf5 : sizeM f5 = sizeM f4 :=
                    (sjm_fuel_size g f).2.2.2 f4 "message" b f5 t5 h5
                  simp [sjm_fuel, ihc fields b hm, h1, h2,
                    ihk f2 "messages" b (by omega), h3,
                    ihk f3 "choices" b (by omega), h4,
                    ihk f4 "message" b (by omega), h5,
                    ihk f5 "delta" b (by omega), Bind.bind, Except.bind]
    · cases xs with
      | nil => rfl
      | cons x xs =>
        have hx : sizeV x ≤ f := by simp [sizeL] at h; omega
        have hxs : sizeL xs ≤ f := by simp [sizeL] at h; omega
        simp only [sjm_list_fuel, ihv x b hx, ihl xs b hxs]
    · cases ms with
      | nil => rfl
      | cons kv rest =>
        obtain ⟨k, v⟩ := kv
        have hr : sizeM rest ≤ f := by simp [sizeM] at h; omega
        by_cases hk : k = "content"
        · simp only [sjm_content_fuel, if_pos hk]
          cases v with
          | null => rfl
          | bool c => rfl
          | num n => rfl
          | str s => rfl
          | obj fs => rfl
          | arr xs =>
            have hx : sizeL xs ≤ f := by simp [sizeM, sizeV] at h; omega
            simp only [ihl xs b hx]
        · simp only [sjm_content_fuel, if_neg hk, ihc rest b hr]
    · cases ms with
      | nil => rfl
      | cons kv rest =>
        obtain ⟨k, v⟩ := kv
        have hr : sizeM rest ≤ f := by simp [sizeM] at h; omega
        by_cases hk : k = key
        · have hv : sizeV v ≤ f := by simp [sizeM] at h; omega
          simp only [sjm_key_fuel, if_pos hk, ihv v b hv]
        · simp only [sjm_key_fuel, if_neg hk, ihk rest key b hr]

/-- Any fuel at least `sizeV json` computes exactly
`sanitize_json_messages`: the fuel used by the wrapper is sufficient, so
the fuel-indexed definition agrees with the source's unfueled recursion. -/
theorem sjm_fuel_congr (g : Gateway) (v : J) (b : Bool) (f : Nat)
    (h : sizeV v ≤ f) : sjm_fuel f g v b = sanitize_json_messages g v b := by
  unfold sanitize_json_messages
  obtain ⟨k, rfl⟩ : ∃ k, f = sizeV v + k := ⟨f - sizeV v, by omega⟩
  clear h
  induction k with
  | zero => rfl
  | succ k ihk =>
    have e : sizeV v + (k + 1) = (sizeV v + k) + 1 := by omega
    rw [e, (sjm_fuel_step g (sizeV v + k)).1 v b (by omega), ihk]

/-- Witness for `sjm_fuel_congr` at surplus fuel on a chat-shaped object. -/
theorem sjm_fuel_congr_witness :
    sizeV (J.obj [("content", J.str "hi")]) ≤ 50 ∧
    sjm_fuel 50 g_red (J.obj [("content", J.str "hi")]) true =
      sanitize_json_messages g_red (J.obj [("content", J.str "hi")]) true :=
  ⟨by decide,
    sjm_fuel_congr g_red (J.obj [("content", J.str "hi")]) true 50
      (by decide)⟩

end GuardProof
